import Mathlib

/-!
# N-body integrator (`src/nbody.cpp`): shallow embedding and verified properties

The physics core of `main` is embedded over an exact ordered field `K`, in two
readings: the exact-arithmetic reading (`pairContribution`, `bodyStep`, `sweep`),
and the rounded reading (`pairContributionFl`, `bodyStepFl`, `sweepFl`) in which
every `float` operation returns the rounded exact result; the exact reading is
the rounded one with the identity as rounding.  The square root
used by `glm::length` / `glm::normalize` is a parameter `sqrt : K → K`; theorems
that depend on its meaning assume `IsSqrt sqrt`, which `Real.sqrt` satisfies.

A division whose divisor is zero has no exact value (the `float` code
produces `inf`/`NaN` there), so every division of the source is a checked
division returning `none` on a zero divisor, and `none` propagates.

Raw arrays `new T[N]` are maps from the index to the stored value; the loops
only ever touch indices below `N`.

The functions of the external library glm (`dot`, `length`, `distance`,
`inversesqrt`, `normalize`, the vector operators) follow the library's
definitions.  The sweep is embedded in its sequential reading, bodies in index
order; the OpenMP pragma on the loop is not modelled.
-/

namespace NBody

/-! ## Vectors (`glm::vec2`) -/

/-- Two-component vector, the embedding of `glm::vec2`. -/
@[ext]
structure Vec2 (K : Type) where
  x : K
  y : K

namespace Vec2

variable {K : Type} [LinearOrderedField K]

instance instZero : Zero (Vec2 K) := ⟨⟨0, 0⟩⟩

instance instAdd : Add (Vec2 K) := ⟨fun u v => ⟨u.x + v.x, u.y + v.y⟩⟩

instance instSub : Sub (Vec2 K) := ⟨fun u v => ⟨u.x - v.x, u.y - v.y⟩⟩

instance instNeg : Neg (Vec2 K) := ⟨fun u => ⟨-u.x, -u.y⟩⟩

/-- The product `vec * scalar` of glm, componentwise. -/
def muls (v : Vec2 K) (s : K) : Vec2 K := ⟨v.x * s, v.y * s⟩

/-- The product `scalar * vec` of glm, componentwise. -/
def smul (s : K) (v : Vec2 K) : Vec2 K := ⟨s * v.x, s * v.y⟩

/-- The quotient `vec / scalar` of glm, componentwise; undefined for a zero divisor. -/
def divs (v : Vec2 K) (s : K) : Option (Vec2 K) :=
  if s = 0 then none else some ⟨v.x / s, v.y / s⟩

/-- The function `glm::dot` on two-component vectors. -/
def dot (u v : Vec2 K) : K := u.x * v.x + u.y * v.y

/-- The function `glm::length`: `sqrt(dot(v, v))`. -/
def length (sqrt : K → K) (v : Vec2 K) : K := sqrt (dot v v)

/-- The function `glm::distance(p0, p1)`: `length(p1 - p0)`. -/
def distance (sqrt : K → K) (p0 p1 : Vec2 K) : K := length sqrt (p1 - p0)

/-- The function `glm::inversesqrt`: `1 / sqrt(x)`; undefined when `sqrt(x)` is zero. -/
def inversesqrt (sqrt : K → K) (x : K) : Option K :=
  if sqrt x = 0 then none else some (1 / sqrt x)

/-- The function `glm::normalize`: `v * inversesqrt(dot(v, v))`. -/
def normalize (sqrt : K → K) (v : Vec2 K) : Option (Vec2 K) :=
  (inversesqrt sqrt (dot v v)).map fun r => muls v r

end Vec2

open Vec2

/-- What the theorems assume of the square root: on non-negative arguments it
returns the non-negative root. -/
def IsSqrt {K : Type} [LinearOrderedField K] (sqrt : K → K) : Prop :=
  ∀ x, 0 ≤ x → 0 ≤ sqrt x ∧ sqrt x * sqrt x = x

/-! ## Constants and simulation state -/

/-- The tunable constants read by the physics loop. -/
structure Constants (K : Type) where
  GRAVITY_CONSTANT : K
  TIME_STEP : K
  SOFTENING : K

/-- The values the source gives the constants: `1e-7`, `1 / 120.0F`, `1e0F`. -/
def sourceConstants (K : Type) [LinearOrderedField K] : Constants K where
  GRAVITY_CONSTANT := 1 / 10 ^ 7
  TIME_STEP := 1 / 120
  SOFTENING := 1

/-- The local `struct simulation`: four parallel arrays indexed by the body. -/
@[ext]
structure Simulation (K : Type) where
  p : Nat → Vec2 K
  v : Nat → Vec2 K
  a : Nat → Vec2 K
  m : Nat → K

variable {K : Type} [LinearOrderedField K]

/-! ## The physics sweep (lines 258-294) -/

/-- A counted loop `for (k = 0; k < n; ++k) body(k)` over a state, where the
body may be undefined. -/
def forLoop {σ : Type} (body : Nat → σ → Option σ) : Nat → σ → Option σ
  | 0, s => some s
  | n + 1, s => (forLoop body n s).bind (body n)

/-- Lines 272-281 in exact arithmetic: what body `j` (at `p2`, mass `m2`) adds to the
acceleration of body `i` (at `p1`, mass `m1`).  The reading with rounded
operations is `pairContributionFl`. -/
def pairContribution (sqrt : K → K) (c : Constants K) (p1 p2 : Vec2 K) (m1 m2 : K) :
    Option (Vec2 K) :=
  (divs (muls p1 m1 + muls p2 m2) (m1 + m2)).bind fun com =>
    let d := distance sqrt com p1
    (normalize sqrt (com - p1)).bind fun dir =>
      divs (muls (muls (muls dir c.GRAVITY_CONSTANT) m1) m2) (d * d + c.SOFTENING)

/-- One iteration of the inner loop (lines 266-282) for the pair `(i, j)`. -/
def forceStep (sqrt : K → K) (c : Constants K) (i j : Nat) (sim : Simulation K) :
    Option (Simulation K) :=
  if i = j then some sim
  else
    (pairContribution sqrt c (sim.p i) (sim.p j) (sim.m i) (sim.m j)).map fun f =>
      { sim with a := Function.update sim.a i (sim.a i + f) }

/-- One iteration of the outer loop (lines 261-291) for body `i` in exact
arithmetic, without the disabled `CENTER_ATTRACTOR` branch.  The reading with
rounded operations is `bodyStepFl`. -/
def bodyStep (sqrt : K → K) (c : Constants K) (N i : Nat) (sim : Simulation K) :
    Option (Simulation K) :=
  let last_acc := sim.a i
  let sim0 : Simulation K := { sim with a := Function.update sim.a i 0 }
  (forLoop (forceStep sqrt c i) N sim0).map fun sim1 =>
    let sim2 : Simulation K :=
      { sim1 with
        p := Function.update sim1.p i
          (sim1.p i + (muls (sim1.v i) c.TIME_STEP
            + muls (muls (muls last_acc c.TIME_STEP) c.TIME_STEP) (1 / 2))) }
    { sim2 with
      v := Function.update sim2.v i
        (sim2.v i + muls (smul (1 / 2) (last_acc + sim2.a i)) c.TIME_STEP) }

/-- One sweep: the outer loop over the bodies `i = 0 .. N-1`, in index order. -/
def sweep (sqrt : K → K) (c : Constants K) (N : Nat) (sim : Simulation K) :
    Option (Simulation K) :=
  forLoop (bodyStep sqrt c N) N sim

/-- The sweep repeated `k` times. -/
def sweeps (sqrt : K → K) (c : Constants K) (N : Nat) : Nat → Simulation K →
    Option (Simulation K)
  | 0, s => some s
  | k + 1, s => (sweeps sqrt c N k s).bind (sweep sqrt c N)

/-! ## The fixed-timestep accumulator loop (lines 241-294) -/

/-- The scheduler state: the accumulator `acc` and the simulation, with two
ghost fields: the number of sweeps run so far and the list of every value
assigned to `acc` so far, in order. -/
structure Scheduler (K : Type) (σ : Type) where
  acc : K
  sim : σ
  count : Nat
  trace : List K

/-- The loop `while (acc >= TIME_STEP) { sweep; acc -= TIME_STEP; }`. -/
def physicsLoop {σ : Type} [FloorRing K] (dt : K) (hdt : 0 < dt) (sw : σ → σ)
    (st : Scheduler K σ) : Scheduler K σ :=
  if dt ≤ st.acc then
    physicsLoop dt hdt sw
      { acc := st.acc - dt, sim := sw st.sim, count := st.count + 1,
        trace := st.trace ++ [st.acc - dt] }
  else st
termination_by (⌊st.acc / dt⌋).toNat
decreasing_by
  rename_i h
  have h1 : (1 : K) ≤ st.acc / dt := by rw [le_div_iff₀ hdt]; simpa using h
  have h2 : (1 : ℤ) ≤ ⌊st.acc / dt⌋ := Int.le_floor.mpr (by exact_mod_cast h1)
  have h3 : (st.acc - dt) / dt = st.acc / dt - 1 := by field_simp
  simp only [h3, Int.floor_sub_one]
  omega

/-- One rendered frame: `acc += deltaTime`, then the physics loop. -/
def frame {σ : Type} [FloorRing K] (dt : K) (hdt : 0 < dt) (sw : σ → σ)
    (st : Scheduler K σ) (deltaTime : K) : Scheduler K σ :=
  physicsLoop dt hdt sw
    { st with acc := st.acc + deltaTime, trace := st.trace ++ [st.acc + deltaTime] }

/-- The frames of a run, one per frame delta, in order. -/
def runFrames {σ : Type} [FloorRing K] (dt : K) (hdt : 0 < dt) (sw : σ → σ)
    (st : Scheduler K σ) (deltas : List K) : Scheduler K σ :=
  deltas.foldl (frame dt hdt sw) st

/-- The scheduler before the first frame: `acc = 0.0`. -/
def initScheduler {σ : Type} (s : σ) : Scheduler K σ :=
  { acc := 0, sim := s, count := 0, trace := [] }

/-- The scheduler of `main`: its simulation is the body store, undefined once a
sweep has divided by zero. -/
def mainFrames [FloorRing K] (sqrt : K → K) (c : Constants K) (hdt : 0 < c.TIME_STEP)
    (N : Nat) (s : Simulation K) (deltas : List K) : Scheduler K (Option (Simulation K)) :=
  runFrames c.TIME_STEP hdt (fun o => o.bind (sweep sqrt c N)) (initScheduler (some s)) deltas

/-! ## Startup: argument validation (lines 73-93) and body initialisation (lines 203-221) -/

/-- The exit status `EXIT_FAILURE`. -/
def EXIT_FAILURE : Int := 1

/-- How startup ends: the process exits with a status before `sim.p` is
allocated, or it reaches the allocation of the body arrays with `N_POINTS`. -/
inductive Startup where
  | exit (status : Int)
  | allocate (N_POINTS : Nat)
  deriving DecidableEq

/-- Lines 83-93: the two range checks on the parsed count `points_in` (the
second compares it with the `double` literal `1.024e3`) and the cast to
`uint32_t`. -/
def validatePoints (points_in : Int) : Except Int Nat :=
  if points_in ≤ 0 then Except.error EXIT_FAILURE
  else if (1024 : ℚ) < (points_in : ℚ) then Except.error EXIT_FAILURE
  else Except.ok (points_in % 2 ^ 32).toNat

/-- Lines 73-206 of `main` as far as the allocation: `argc`, the parsed
`points_in`, and whether `glfwCreateWindow` and `gladLoadGLLoader` succeed. -/
def startup (argc : Nat) (points_in : Int) (windowCreated gladLoaded : Bool) : Startup :=
  if argc ≠ 2 then Startup.exit EXIT_FAILURE
  else
    match validatePoints points_in with
    | Except.error status => Startup.exit status
    | Except.ok N_POINTS =>
      if windowCreated = false then Startup.exit (-1)
      else if gladLoaded = false then Startup.exit (-1)
      else Startup.allocate N_POINTS

/-- Lines 216-219: the initialisation of body `i`.  The sequence `dist` lists the
values returned by the successive calls `dist(rng)` and `mass_dist` those
returned by the successive calls `mass_dist(rng)`. -/
def initBody (dist mass_dist : Nat → K) (i : Nat) (sim : Simulation K) : Simulation K :=
  { p := Function.update sim.p i ⟨dist (2 * i), dist (2 * i + 1)⟩
    v := Function.update sim.v i ⟨0, 0⟩
    a := Function.update sim.a i ⟨0, 0⟩
    m := Function.update sim.m i (mass_dist i) }

/-- Lines 215-221: the initialisation loop over `i = 0 .. N-1`, from the freshly
allocated arrays `sim`.  (The `uint16_t` counter cannot wrap: `N` is at most
1024 after validation.) -/
def initBodies (dist mass_dist : Nat → K) : Nat → Simulation K → Simulation K
  | 0, sim => sim
  | n + 1, sim => initBody dist mass_dist n (initBodies dist mass_dist n sim)

/-! ## The specification's reading of a sweep (spec sections 4.1, 4.2 and 5) -/

/-- Spec 4.1, the force evaluator: the sum over the bodies `j < n`, `j ≠ i`, of the
contribution of `j` to `i`, read from `positions` and `masses`. -/
def evaluate_acceleration (sqrt : K → K) (c : Constants K) (i : Nat)
    (positions : Nat → Vec2 K) (masses : Nat → K) : Nat → Option (Vec2 K)
  | 0 => some 0
  | j + 1 =>
    (evaluate_acceleration sqrt c i positions masses j).bind fun acc =>
      if i = j then some acc
      else
        (pairContribution sqrt c (positions i) (positions j) (masses i) (masses j)).map
          fun f => acc + f

/-- Spec 4.2, the step integrator applied to the bodies below `n` with the new
accelerations `a_new`: `position += velocity*dt + 0.5*a_prev*dt²`,
`velocity += 0.5*(a_prev + a_new)*dt`, `acceleration = a_new`. -/
def integrate (c : Constants K) (n : Nat) (s : Simulation K) (a_new : Nat → Vec2 K) :
    Simulation K where
  p := fun i =>
    if i < n then
      s.p i + (muls (s.v i) c.TIME_STEP + muls (smul (1 / 2) (s.a i)) (c.TIME_STEP ^ 2))
    else s.p i
  v := fun i =>
    if i < n then s.v i + muls (smul (1 / 2) (s.a i + a_new i)) c.TIME_STEP else s.v i
  a := fun i => if i < n then a_new i else s.a i
  m := s.m

/-- The accelerations `f 0 .. f (n-1)` gathered into one array, defined when all of
them are. -/
def collect (f : Nat → Option (Vec2 K)) : Nat → Option (Nat → Vec2 K)
  | 0 => some fun _ => 0
  | n + 1 => (collect f n).bind fun g => (f n).map fun a => Function.update g n a

/-- Spec 5, the snapshot sweep: every body's new acceleration is evaluated on the
positions and masses as they were before the sweep began. -/
def snapshotSweep (sqrt : K → K) (c : Constants K) (N : Nat) (s : Simulation K) :
    Option (Simulation K) :=
  (collect (fun i => evaluate_acceleration sqrt c i s.p s.m N) N).map (integrate c N s)

/-- The positions body `i` reads in an in-place sweep that started from `s`: the
bodies below `i` are already advanced, the others are as before the sweep. -/
def positionsSeenBy (c : Constants K) (s : Simulation K) (i : Nat) : Nat → Vec2 K :=
  fun j =>
    if j < i then
      s.p j + (muls (s.v j) c.TIME_STEP + muls (smul (1 / 2) (s.a j)) (c.TIME_STEP ^ 2))
    else s.p j

/-- The in-place sweep in closed form: as the snapshot sweep, except that body `i`
evaluates its force on `positionsSeenBy c s i`. -/
def inPlaceSweep (sqrt : K → K) (c : Constants K) (N : Nat) (s : Simulation K) :
    Option (Simulation K) :=
  (collect (fun i => evaluate_acceleration sqrt c i (positionsSeenBy c s i) s.m N) N).map
    (integrate c N s)

/-- The bound of C9 on the acceleration accumulated by body `i` over the bodies
`j < n`: the sum over `j ≠ i` of `G * m_i * m_j / SOFTENING`. -/
def accelerationBound (c : Constants K) (masses : Nat → K) (i : Nat) : Nat → K
  | 0 => 0
  | j + 1 =>
    accelerationBound c masses i j
      + if i = j then 0 else c.GRAVITY_CONSTANT * masses i * masses j / c.SOFTENING

/-- The vector `com - p1` of lines 276-279, written out by components. -/
def pairOffset (p1 p2 : Vec2 K) (m1 m2 : K) : Vec2 K :=
  ⟨(p1.x * m1 + p2.x * m2) / (m1 + m2) - p1.x, (p1.y * m1 + p2.y * m2) / (m1 + m2) - p1.y⟩

/-! ## Binary32 rounding and the rounded reading of the sweep

The source computes in `float`.  In the rounded reading every arithmetic
operation of the source returns `fl` of its exact result, for a rounding
function `fl : K → K`; `round32` is the rounding of IEEE binary32 (round to
nearest, ties to even), each operation rounded on its own (no fused
multiply-add) and no operation overflowing.  With `fl = id` the
rounded reading is the exact reading above (`pairContributionFl_id`,
`sweepFl_id`, `sweepsFl_id`). -/

/-- Rounding to the nearest integer, a tie going to the even one. -/
def roundHalfEven [FloorRing K] (q : K) : ℤ :=
  if q - ⌊q⌋ < 1 / 2 then ⌊q⌋
  else if 1 / 2 < q - ⌊q⌋ then ⌊q⌋ + 1
  else if ⌊q⌋ % 2 = 0 then ⌊q⌋ else ⌊q⌋ + 1

/-- The exponent `e` of the binary32 binade of `x`: `2^e ≤ |x| < 2^(e+1)`, and `-126`
in the subnormal range. -/
def binade32 [FloorRing K] (x : K) : ℤ := max (Int.log 2 |x|) (-126)

/-- The binary32 value nearest to `x` (24-bit significand, ties to even, subnormals
included), for `x` below the overflow threshold `2^128`. -/
def round32 [FloorRing K] (x : K) : K :=
  (roundHalfEven (x / 2 ^ (binade32 x - 23)) : K) * 2 ^ (binade32 x - 23)

/-- The constants as the `float` values the source gives them: `1e-7`, `1 / 120.0F`
and `1e0F` rounded to binary32. -/
def sourceConstants32 (K : Type) [LinearOrderedField K] [FloorRing K] : Constants K where
  GRAVITY_CONSTANT := round32 (1 / 10 ^ 7)
  TIME_STEP := round32 (1 / 120)
  SOFTENING := round32 1

namespace Vec2

/-- The sum `vec + vec` with each component rounded. -/
def addFl (fl : K → K) (u v : Vec2 K) : Vec2 K := ⟨fl (u.x + v.x), fl (u.y + v.y)⟩

/-- The difference `vec - vec` with each component rounded. -/
def subFl (fl : K → K) (u v : Vec2 K) : Vec2 K := ⟨fl (u.x - v.x), fl (u.y - v.y)⟩

/-- The product `vec * scalar` with each component rounded. -/
def mulsFl (fl : K → K) (v : Vec2 K) (s : K) : Vec2 K := ⟨fl (v.x * s), fl (v.y * s)⟩

/-- The product `scalar * vec` with each component rounded. -/
def smulFl (fl : K → K) (s : K) (v : Vec2 K) : Vec2 K := ⟨fl (s * v.x), fl (s * v.y)⟩

/-- The quotient `vec / scalar` with each component rounded; undefined for a zero
divisor. -/
def divsFl (fl : K → K) (v : Vec2 K) (s : K) : Option (Vec2 K) :=
  if s = 0 then none else some ⟨fl (v.x / s), fl (v.y / s)⟩

/-- The function `glm::dot`: the two products, then their sum, each rounded. -/
def dotFl (fl : K → K) (u v : Vec2 K) : K := fl (fl (u.x * v.x) + fl (u.y * v.y))

/-- The function `glm::length` with the correctly rounded square root. -/
def lengthFl (fl sqrt : K → K) (v : Vec2 K) : K := fl (sqrt (dotFl fl v v))

/-- The function `glm::distance(p0, p1)`: the length of the rounded `p1 - p0`. -/
def distanceFl (fl sqrt : K → K) (p0 p1 : Vec2 K) : K := lengthFl fl sqrt (subFl fl p1 p0)

/-- The function `glm::inversesqrt`: `1 / sqrt(x)`, both operations rounded;
undefined when the rounded square root is zero. -/
def inversesqrtFl (fl sqrt : K → K) (x : K) : Option K :=
  if fl (sqrt x) = 0 then none else some (fl (1 / fl (sqrt x)))

/-- The function `glm::normalize`: `v * inversesqrt(dot(v, v))`, rounded. -/
def normalizeFl (fl sqrt : K → K) (v : Vec2 K) : Option (Vec2 K) :=
  (inversesqrtFl fl sqrt (dotFl fl v v)).map fun r => mulsFl fl v r

end Vec2

/-- Lines 272-281 with every operation rounded by `fl`. -/
def pairContributionFl (fl sqrt : K → K) (c : Constants K) (p1 p2 : Vec2 K) (m1 m2 : K) :
    Option (Vec2 K) :=
  (divsFl fl (addFl fl (mulsFl fl p1 m1) (mulsFl fl p2 m2)) (fl (m1 + m2))).bind fun com =>
    let d := distanceFl fl sqrt com p1
    (normalizeFl fl sqrt (subFl fl com p1)).bind fun dir =>
      divsFl fl (mulsFl fl (mulsFl fl (mulsFl fl dir c.GRAVITY_CONSTANT) m1) m2)
        (fl (fl (d * d) + c.SOFTENING))

/-- One iteration of the inner loop (lines 266-282) with every operation rounded. -/
def forceStepFl (fl sqrt : K → K) (c : Constants K) (i j : Nat) (sim : Simulation K) :
    Option (Simulation K) :=
  if i = j then some sim
  else
    (pairContributionFl fl sqrt c (sim.p i) (sim.p j) (sim.m i) (sim.m j)).map fun f =>
      { sim with a := Function.update sim.a i (addFl fl (sim.a i) f) }

/-- One iteration of the outer loop (lines 261-291) with every operation rounded. -/
def bodyStepFl (fl sqrt : K → K) (c : Constants K) (N i : Nat) (sim : Simulation K) :
    Option (Simulation K) :=
  let last_acc := sim.a i
  let sim0 : Simulation K := { sim with a := Function.update sim.a i 0 }
  (forLoop (forceStepFl fl sqrt c i) N sim0).map fun sim1 =>
    let sim2 : Simulation K :=
      { sim1 with
        p := Function.update sim1.p i
          (addFl fl (sim1.p i) (addFl fl (mulsFl fl (sim1.v i) c.TIME_STEP)
            (mulsFl fl (mulsFl fl (mulsFl fl last_acc c.TIME_STEP) c.TIME_STEP) (1 / 2)))) }
    { sim2 with
      v := Function.update sim2.v i
        (addFl fl (sim2.v i)
          (mulsFl fl (smulFl fl (1 / 2) (addFl fl last_acc (sim2.a i))) c.TIME_STEP)) }

/-- One sweep with every operation rounded. -/
def sweepFl (fl sqrt : K → K) (c : Constants K) (N : Nat) (sim : Simulation K) :
    Option (Simulation K) :=
  forLoop (bodyStepFl fl sqrt c N) N sim

/-- The rounded sweep repeated `k` times. -/
def sweepsFl (fl sqrt : K → K) (c : Constants K) (N : Nat) : Nat → Simulation K →
    Option (Simulation K)
  | 0, s => some s
  | k + 1, s => (sweepsFl fl sqrt c N k s).bind (sweepFl fl sqrt c N)

/-! ## Concrete states used as examples -/

/-- A single body at `(2^24, 0)` moving at `(1, 0)`, zero prior acceleration. -/
def stuckState : Simulation ℝ where
  p := fun _ => ⟨2 ^ 24, 0⟩
  v := fun _ => ⟨1, 0⟩
  a := fun _ => ⟨0, 0⟩
  m := fun _ => 25000

/-- Two bodies of mass 25000 at rest at the same position `(3, 4)`. -/
def coincidentState : Simulation ℝ where
  p := fun _ => ⟨3, 4⟩
  v := fun _ => ⟨0, 0⟩
  a := fun _ => ⟨0, 0⟩
  m := fun _ => 25000

/-- Two unit masses at `(1, 0)` and `(-1, 0)`; body 0 moves towards body 1. -/
def raceState : Simulation ℝ where
  p := fun i => if i = 0 then ⟨1, 0⟩ else ⟨-1, 0⟩
  v := fun i => if i = 0 then ⟨-120, 0⟩ else ⟨0, 0⟩
  a := fun _ => ⟨0, 0⟩
  m := fun _ => 1

/-- Two equal masses `10^4` at rest at `(1, 0)` and `(-1, 0)`, with zero prior
accelerations. -/
def mirrorState : Simulation ℝ where
  p := fun i => if i = 0 then ⟨1, 0⟩ else ⟨-1, 0⟩
  v := fun _ => ⟨0, 0⟩
  a := fun _ => ⟨0, 0⟩
  m := fun _ => 10 ^ 4

/-- A single body at `(1, 2)` with velocity `(3, 4)` and zero prior acceleration. -/
def soloState : Simulation ℝ where
  p := fun _ => ⟨1, 2⟩
  v := fun _ => ⟨3, 4⟩
  a := fun _ => ⟨0, 0⟩
  m := fun _ => 25000

/-- Freshly allocated arrays, before the initialisation loop. -/
def freshArrays : Simulation ℚ where
  p := fun _ => ⟨0, 0⟩
  v := fun _ => ⟨0, 0⟩
  a := fun _ => ⟨0, 0⟩
  m := fun _ => 0

/-- A sequence of mass draws whose second value is negative. -/
def badMassDraws : Nat → ℚ := fun k => if k = 0 then 25000 else -3

/-! ## Basic facts on vectors and loops -/

namespace Vec2

@[simp] theorem zero_x : (0 : Vec2 K).x = 0 := rfl

@[simp] theorem zero_y : (0 : Vec2 K).y = 0 := rfl

@[simp] theorem add_x (u v : Vec2 K) : (u + v).x = u.x + v.x := rfl

@[simp] theorem add_y (u v : Vec2 K) : (u + v).y = u.y + v.y := rfl

@[simp] theorem sub_x (u v : Vec2 K) : (u - v).x = u.x - v.x := rfl

@[simp] theorem sub_y (u v : Vec2 K) : (u - v).y = u.y - v.y := rfl

@[simp] theorem neg_x (u : Vec2 K) : (-u).x = -u.x := rfl

@[simp] theorem neg_y (u : Vec2 K) : (-u).y = -u.y := rfl

@[simp] theorem muls_x (u : Vec2 K) (s : K) : (muls u s).x = u.x * s := rfl

@[simp] theorem muls_y (u : Vec2 K) (s : K) : (muls u s).y = u.y * s := rfl

@[simp] theorem smul_x (s : K) (u : Vec2 K) : (smul s u).x = s * u.x := rfl

@[simp] theorem smul_y (s : K) (u : Vec2 K) : (smul s u).y = s * u.y := rfl

theorem zero_add_vec (u : Vec2 K) : (0 : Vec2 K) + u = u := by
  ext <;> simp

theorem half_step_eq (a : Vec2 K) (dt : K) :
    muls (muls (muls a dt) dt) (1 / 2) = muls (smul (1 / 2) a) (dt ^ 2) := by
  ext <;> simp <;> ring

end Vec2

/-- The inner loop accumulates into `a[i]` exactly what the force evaluator
returns on the positions and masses of the state it runs on. -/
theorem forLoop_forceStep (sqrt : K → K) (c : Constants K) (i : Nat) (sim : Simulation K)
    (n : Nat) :
    forLoop (forceStep sqrt c i) n { sim with a := Function.update sim.a i 0 }
      = (evaluate_acceleration sqrt c i sim.p sim.m n).map
          fun f => { sim with a := Function.update sim.a i f } := by
  induction n with
  | zero => simp [forLoop, evaluate_acceleration]
  | succ n ih =>
    simp only [forLoop, evaluate_acceleration, ih]
    cases h : evaluate_acceleration sqrt c i sim.p sim.m n with
    | none => simp
    | some acc =>
      simp only [Option.map_some', Option.some_bind, forceStep]
      by_cases hij : i = n
      · simp [hij]
      · simp only [hij, if_false, Function.update_same, Function.update_idem, Option.map_map]
        rfl

/-- Running the outer-loop body for `k` on the state in which the bodies below `k`
are advanced advances body `k` with the force it evaluates on that state. -/
theorem bodyStep_integrate (sqrt : K → K) (c : Constants K) (N k : Nat) (s : Simulation K)
    (g : Nat → Vec2 K) :
    bodyStep sqrt c N k (integrate c k s g)
      = (evaluate_acceleration sqrt c k (positionsSeenBy c s k) s.m N).map
          fun f => integrate c (k + 1) s (Function.update g k f) := by
  unfold bodyStep
  simp only []
  rw [forLoop_forceStep sqrt c k (integrate c k s g) N]
  rw [Option.map_map]
  have hp : (integrate c k s g).p = positionsSeenBy c s k := rfl
  have hm : (integrate c k s g).m = s.m := rfl
  rw [hp, hm]
  congr 1
  funext f
  ext j : 2
  · by_cases hjk : j = k
    · subst hjk
      simp only [integrate, positionsSeenBy, Function.update_same, lt_irrefl, if_false,
        Nat.lt_succ_self, if_true, Vec2.half_step_eq, Function.comp_apply]
    · have hlt : j < k + 1 ↔ j < k := by omega
      simp [integrate, positionsSeenBy, Function.update_noteq hjk, hlt]
  · by_cases hjk : j = k
    · subst hjk
      simp [integrate]
    · have hlt : j < k + 1 ↔ j < k := by omega
      simp [integrate, Function.update_noteq hjk, hlt]
  · by_cases hjk : j = k
    · subst hjk
      simp [integrate]
    · have hlt : j < k + 1 ↔ j < k := by omega
      simp [integrate, Function.update_noteq hjk, hlt]
  · rfl

/-- The outer loop run over the bodies below `k` equals the closed form: the
accelerations evaluated on `positionsSeenBy`, then the integrator. -/
theorem forLoop_bodyStep (sqrt : K → K) (c : Constants K) (N : Nat) (s : Simulation K)
    (k : Nat) :
    forLoop (bodyStep sqrt c N) k s
      = (collect (fun i => evaluate_acceleration sqrt c i (positionsSeenBy c s i) s.m N) k).map
          (integrate c k s) := by
  induction k with
  | zero =>
    simp only [forLoop, collect, Option.map_some']
    congr 1
  | succ k ih =>
    simp only [forLoop, collect, ih]
    cases hg : collect (fun i => evaluate_acceleration sqrt c i (positionsSeenBy c s i) s.m N) k with
    | none => simp
    | some g =>
      simp only [Option.map_some', Option.some_bind, bodyStep_integrate]
      cases evaluate_acceleration sqrt c k (positionsSeenBy c s k) s.m N <;> simp

/-! ## The square root -/

theorem isSqrt_real : IsSqrt Real.sqrt :=
  fun x hx => ⟨Real.sqrt_nonneg x, Real.mul_self_sqrt hx⟩

theorem IsSqrt.sqrt_mul_self {sqrt : K → K} (hs : IsSqrt sqrt) {r : K} (hr : 0 ≤ r) :
    sqrt (r * r) = r := by
  obtain ⟨h0, h1⟩ := hs (r * r) (mul_self_nonneg r)
  exact (mul_self_inj h0 hr).mp h1

theorem IsSqrt.sqrt_zero {sqrt : K → K} (hs : IsSqrt sqrt) : sqrt 0 = 0 := by
  have h := hs.sqrt_mul_self (le_refl (0 : K))
  simpa using h

theorem IsSqrt.sqrt_pos {sqrt : K → K} (hs : IsSqrt sqrt) {x : K} (hx : 0 < x) :
    0 < sqrt x := by
  obtain ⟨h0, h1⟩ := hs x hx.le
  rcases h0.lt_or_eq with h | h
  · exact h
  · rw [← h] at h1
    simp at h1
    exact absurd h1.symm hx.ne'

theorem Vec2.dot_self_nonneg (w : Vec2 K) : 0 ≤ dot w w := by
  show 0 ≤ w.x * w.x + w.y * w.y
  nlinarith [mul_self_nonneg w.x, mul_self_nonneg w.y]

theorem Vec2.dot_self_eq_zero {w : Vec2 K} (h : dot w w = 0) : w = 0 := by
  change w.x * w.x + w.y * w.y = 0 at h
  have hx : w.x * w.x = 0 := by nlinarith [mul_self_nonneg w.x, mul_self_nonneg w.y]
  have hy : w.y * w.y = 0 := by nlinarith [mul_self_nonneg w.x, mul_self_nonneg w.y]
  ext
  · simpa using hx
  · simpa using hy

/-! ## The pairwise contribution in closed form -/

/-- With a non-zero mass sum, the contribution is undefined exactly when the
normalised vector `com - p1` has length zero or the softened squared distance is
zero; otherwise it is `com - p1` scaled. -/
theorem pairContribution_eq (sqrt : K → K) (c : Constants K) (p1 p2 : Vec2 K) (m1 m2 : K)
    (hm : m1 + m2 ≠ 0) :
    pairContribution sqrt c p1 p2 m1 m2
      = if sqrt (dot (pairOffset p1 p2 m1 m2) (pairOffset p1 p2 m1 m2)) = 0 then none
        else
          divs
            (muls (muls (muls (muls (pairOffset p1 p2 m1 m2)
              (1 / sqrt (dot (pairOffset p1 p2 m1 m2) (pairOffset p1 p2 m1 m2))))
              c.GRAVITY_CONSTANT) m1) m2)
            (sqrt (dot (pairOffset p1 p2 m1 m2) (pairOffset p1 p2 m1 m2))
              * sqrt (dot (pairOffset p1 p2 m1 m2) (pairOffset p1 p2 m1 m2)) + c.SOFTENING) := by
  have hcom : divs (muls p1 m1 + muls p2 m2) (m1 + m2)
      = some ⟨(p1.x * m1 + p2.x * m2) / (m1 + m2), (p1.y * m1 + p2.y * m2) / (m1 + m2)⟩ := by
    simp [divs, hm]
  have hw : (⟨(p1.x * m1 + p2.x * m2) / (m1 + m2), (p1.y * m1 + p2.y * m2) / (m1 + m2)⟩
      : Vec2 K) - p1 = pairOffset p1 p2 m1 m2 := rfl
  have hd : distance sqrt (⟨(p1.x * m1 + p2.x * m2) / (m1 + m2),
      (p1.y * m1 + p2.y * m2) / (m1 + m2)⟩ : Vec2 K) p1
      = sqrt (dot (pairOffset p1 p2 m1 m2) (pairOffset p1 p2 m1 m2)) := by
    unfold distance length
    congr 1
    simp only [dot, pairOffset, Vec2.sub_x, Vec2.sub_y]
    ring
  unfold pairContribution
  rw [hcom]
  simp only [Option.some_bind, hw, hd, Vec2.normalize, Vec2.inversesqrt]
  by_cases h0 : sqrt (dot (pairOffset p1 p2 m1 m2) (pairOffset p1 p2 m1 m2)) = 0
  · simp [h0]
  · simp [h0]

/-- Evaluation of the contribution from a known length `r` of `com - p1`. -/
theorem pairContribution_of_length {sqrt : K → K} (hs : IsSqrt sqrt) (c : Constants K)
    (p1 p2 : Vec2 K) (m1 m2 r : K) (hm : m1 + m2 ≠ 0) (hr : 0 < r)
    (hrr : r * r = dot (pairOffset p1 p2 m1 m2) (pairOffset p1 p2 m1 m2))
    (hS : r * r + c.SOFTENING ≠ 0) :
    pairContribution sqrt c p1 p2 m1 m2
      = some ⟨(pairOffset p1 p2 m1 m2).x * (1 / r) * c.GRAVITY_CONSTANT * m1 * m2
                / (r * r + c.SOFTENING),
              (pairOffset p1 p2 m1 m2).y * (1 / r) * c.GRAVITY_CONSTANT * m1 * m2
                / (r * r + c.SOFTENING)⟩ := by
  have hsq : sqrt (dot (pairOffset p1 p2 m1 m2) (pairOffset p1 p2 m1 m2)) = r := by
    rw [← hrr]
    exact hs.sqrt_mul_self hr.le
  rw [pairContribution_eq sqrt c p1 p2 m1 m2 hm, hsq]
  simp [divs, hr.ne', hS]

/-- The contribution is defined exactly when `com - p1` is not the zero vector
(non-zero mass sum, positive softening). -/
theorem pairContribution_isSome_iff {sqrt : K → K} (hs : IsSqrt sqrt) (c : Constants K)
    (p1 p2 : Vec2 K) (m1 m2 : K) (hm : m1 + m2 ≠ 0) (hS : 0 < c.SOFTENING) :
    (pairContribution sqrt c p1 p2 m1 m2).isSome ↔ pairOffset p1 p2 m1 m2 ≠ 0 := by
  rw [pairContribution_eq sqrt c p1 p2 m1 m2 hm]
  constructor
  · intro h hw
    rw [hw] at h
    have : dot (0 : Vec2 K) 0 = 0 := by simp [dot]
    simp [this, hs.sqrt_zero] at h
  · intro hw
    have hpos : 0 < dot (pairOffset p1 p2 m1 m2) (pairOffset p1 p2 m1 m2) := by
      rcases (Vec2.dot_self_nonneg (pairOffset p1 p2 m1 m2)).lt_or_eq with h | h
      · exact h
      · exact absurd (Vec2.dot_self_eq_zero h.symm) hw
    have hL := hs.sqrt_pos hpos
    have hne : sqrt (dot (pairOffset p1 p2 m1 m2) (pairOffset p1 p2 m1 m2))
        * sqrt (dot (pairOffset p1 p2 m1 m2) (pairOffset p1 p2 m1 m2)) + c.SOFTENING ≠ 0 := by
      positivity
    simp [hL.ne', divs, hne]

/-- Evaluation of the contribution to a given vector `f`. -/
theorem pairContribution_eval {sqrt : K → K} (hs : IsSqrt sqrt) (c : Constants K)
    (p1 p2 : Vec2 K) (m1 m2 r : K) (f : Vec2 K) (hm : m1 + m2 ≠ 0) (hr : 0 < r)
    (hrr : r * r = dot (pairOffset p1 p2 m1 m2) (pairOffset p1 p2 m1 m2))
    (hS : r * r + c.SOFTENING ≠ 0)
    (hx : f.x = (pairOffset p1 p2 m1 m2).x * (1 / r) * c.GRAVITY_CONSTANT * m1 * m2
                / (r * r + c.SOFTENING))
    (hy : f.y = (pairOffset p1 p2 m1 m2).y * (1 / r) * c.GRAVITY_CONSTANT * m1 * m2
                / (r * r + c.SOFTENING)) :
    pairContribution sqrt c p1 p2 m1 m2 = some f := by
  rw [pairContribution_of_length hs c p1 p2 m1 m2 r hm hr hrr hS]
  congr 1
  ext
  · exact hx.symm
  · exact hy.symm

/-! ## Sweeps from known accelerations -/

theorem collect_of_forall (f : Nat → Option (Vec2 K)) (g : Nat → Vec2 K) (n : Nat)
    (h : ∀ i, i < n → f i = some (g i)) :
    ∃ g2, collect f n = some g2 ∧ ∀ i, i < n → g2 i = g i := by
  induction n with
  | zero => exact ⟨fun _ => 0, rfl, fun i hi => absurd hi (Nat.not_lt_zero i)⟩
  | succ n ih =>
    obtain ⟨g2, hg2, hag⟩ := ih fun i hi => h i (Nat.lt_succ_of_lt hi)
    refine ⟨Function.update g2 n (g n), ?_, ?_⟩
    · simp [collect, hg2, h n (Nat.lt_succ_self n)]
    · intro i hi
      by_cases hin : i = n
      · subst hin
        simp
      · rw [Function.update_noteq hin]
        exact hag i (by omega)

theorem collect_some (f : Nat → Option (Vec2 K)) (n : Nat) :
    ∀ g, collect f n = some g → ∀ i, i < n → f i = some (g i) := by
  induction n with
  | zero => intro g _ i hi; exact absurd hi (Nat.not_lt_zero i)
  | succ n ih =>
    intro g hg i hi
    simp only [collect] at hg
    cases hc : collect f n with
    | none => simp [hc] at hg
    | some g2 =>
      cases hf : f n with
      | none => simp [hc, hf] at hg
      | some a =>
        simp only [hc, hf, Option.some_bind, Option.map_some', Option.some.injEq] at hg
        subst hg
        by_cases hin : i = n
        · subst hin
          simp [hf]
        · rw [Function.update_noteq hin]
          exact ih g2 hc i (by omega)

theorem integrate_congr (c : Constants K) (n : Nat) (s : Simulation K) (g g2 : Nat → Vec2 K)
    (h : ∀ i, i < n → g i = g2 i) : integrate c n s g = integrate c n s g2 := by
  ext j : 2
  · rfl
  · by_cases hj : j < n
    · simp [integrate, hj, h j hj]
    · simp [integrate, hj]
  · by_cases hj : j < n
    · simp [integrate, hj, h j hj]
    · simp [integrate, hj]
  · rfl

theorem map_integrate_of_forall (c : Constants K) (s : Simulation K)
    (f : Nat → Option (Vec2 K)) (g : Nat → Vec2 K) (n : Nat)
    (h : ∀ i, i < n → f i = some (g i)) :
    (collect f n).map (integrate c n s) = some (integrate c n s g) := by
  obtain ⟨g2, hg2, hag⟩ := collect_of_forall f g n h
  rw [hg2, Option.map_some', integrate_congr c n s g2 g hag]

theorem map_integrate_some (c : Constants K) (s s2 : Simulation K)
    (f : Nat → Option (Vec2 K)) (n : Nat)
    (h : (collect f n).map (integrate c n s) = some s2) :
    ∃ g, s2 = integrate c n s g ∧ ∀ i, i < n → f i = some (g i) := by
  cases hc : collect f n with
  | none => simp [hc] at h
  | some g =>
    simp only [hc, Option.map_some', Option.some.injEq] at h
    exact ⟨g, h.symm, collect_some f n g hc⟩

/-- A sweep whose accelerations are all defined. -/
theorem sweep_of_accels (sqrt : K → K) (c : Constants K) (N : Nat) (s : Simulation K)
    (g : Nat → Vec2 K)
    (h : ∀ i, i < N →
      evaluate_acceleration sqrt c i (positionsSeenBy c s i) s.m N = some (g i)) :
    sweep sqrt c N s = some (integrate c N s g) := by
  unfold sweep
  rw [forLoop_bodyStep]
  exact map_integrate_of_forall c s _ g N h

/-- A defined sweep is the integrator applied to accelerations evaluated on
`positionsSeenBy`. -/
theorem sweep_some (sqrt : K → K) (c : Constants K) (N : Nat) (s s2 : Simulation K)
    (h : sweep sqrt c N s = some s2) :
    ∃ g, s2 = integrate c N s g ∧ ∀ i, i < N →
      evaluate_acceleration sqrt c i (positionsSeenBy c s i) s.m N = some (g i) := by
  unfold sweep at h
  rw [forLoop_bodyStep] at h
  exact map_integrate_some c s s2 _ N h

theorem evaluate_acceleration_two_zero (sqrt : K → K) (c : Constants K)
    (pos : Nat → Vec2 K) (m : Nat → K) :
    evaluate_acceleration sqrt c 0 pos m 2 = pairContribution sqrt c (pos 0) (pos 1) (m 0) (m 1) := by
  simp only [evaluate_acceleration, Option.some_bind, if_true]
  cases pairContribution sqrt c (pos 0) (pos 1) (m 0) (m 1) with
  | none => simp
  | some f => simp [Vec2.zero_add_vec]

theorem evaluate_acceleration_two_one (sqrt : K → K) (c : Constants K)
    (pos : Nat → Vec2 K) (m : Nat → K) :
    evaluate_acceleration sqrt c 1 pos m 2 = pairContribution sqrt c (pos 1) (pos 0) (m 1) (m 0) := by
  simp only [evaluate_acceleration, Option.some_bind]
  cases pairContribution sqrt c (pos 1) (pos 0) (m 1) (m 0) with
  | none => simp
  | some f => simp [Vec2.zero_add_vec]

/-- The in-place sweep of two bodies: body 1 reads the advanced position of body 0. -/
theorem sweep_two (sqrt : K → K) (c : Constants K) (s : Simulation K) (g : Nat → Vec2 K)
    (h0 : pairContribution sqrt c (s.p 0) (s.p 1) (s.m 0) (s.m 1) = some (g 0))
    (h1 : pairContribution sqrt c (s.p 1)
        (s.p 0 + (muls (s.v 0) c.TIME_STEP + muls (smul (1 / 2) (s.a 0)) (c.TIME_STEP ^ 2)))
        (s.m 1) (s.m 0) = some (g 1)) :
    sweep sqrt c 2 s = some (integrate c 2 s g) := by
  apply sweep_of_accels
  intro i hi
  interval_cases i
  · rw [evaluate_acceleration_two_zero]
    simpa [positionsSeenBy] using h0
  · rw [evaluate_acceleration_two_one]
    simpa [positionsSeenBy] using h1

/-- The snapshot sweep of two bodies: both read the positions from before the sweep. -/
theorem snapshotSweep_two (sqrt : K → K) (c : Constants K) (s : Simulation K)
    (g : Nat → Vec2 K)
    (h0 : pairContribution sqrt c (s.p 0) (s.p 1) (s.m 0) (s.m 1) = some (g 0))
    (h1 : pairContribution sqrt c (s.p 1) (s.p 0) (s.m 1) (s.m 0) = some (g 1)) :
    snapshotSweep sqrt c 2 s = some (integrate c 2 s g) := by
  unfold snapshotSweep
  apply map_integrate_of_forall
  intro i hi
  interval_cases i
  · rw [evaluate_acceleration_two_zero]
    exact h0
  · rw [evaluate_acceleration_two_one]
    exact h1

/-! ## C1: the sweep against the snapshot sweep -/

/-- C1 (amended): for every state, one sweep of the physics loop (bodies processed
`i = 0 .. N-1`, each force loop followed by the position and velocity update)
equals the closed form `inPlaceSweep`: body `i` gets the force evaluator's
result on the positions in which the bodies below `i` are already advanced by
this sweep and the others are as before it, then the integrator's update; the
sweep is undefined exactly when one of these evaluations divides by zero. -/
theorem sweep_eq_inPlaceSweep (sqrt : K → K) (c : Constants K) (N : Nat)
    (s : Simulation K) :
    sweep sqrt c N s = inPlaceSweep sqrt c N s := by
  unfold sweep inPlaceSweep
  exact forLoop_bodyStep sqrt c N s N

/-- C1 (counterexample): on two unit masses at `(1, 0)` and `(-1, 0)` with body 0
moving at `(-120, 0)`, the sweep of the code differs from the snapshot sweep:
body 1 reads body 0 at its advanced position `(0, 0)`. -/
theorem sweep_ne_snapshotSweep :
    sweep Real.sqrt (sourceConstants ℝ) 2 raceState
      ≠ snapshotSweep Real.sqrt (sourceConstants ℝ) 2 raceState := by
  have h1 : sweep Real.sqrt (sourceConstants ℝ) 2 raceState
      = some (integrate (sourceConstants ℝ) 2 raceState
          fun i => if i = 0 then ⟨-(1 / (2 * 10 ^ 7)), 0⟩ else ⟨4 / (5 * 10 ^ 7), 0⟩) := by
    apply sweep_two
    · apply pairContribution_eval isSqrt_real _ _ _ _ _ 1 <;>
        norm_num [raceState, sourceConstants, pairOffset, dot]
    · apply pairContribution_eval isSqrt_real _ _ _ _ _ (1 / 2) <;>
        norm_num [raceState, sourceConstants, pairOffset, dot]
  have h2 : snapshotSweep Real.sqrt (sourceConstants ℝ) 2 raceState
      = some (integrate (sourceConstants ℝ) 2 raceState
          fun i => if i = 0 then ⟨-(1 / (2 * 10 ^ 7)), 0⟩ else ⟨1 / (2 * 10 ^ 7), 0⟩) := by
    apply snapshotSweep_two
    · apply pairContribution_eval isSqrt_real _ _ _ _ _ 1 <;>
        norm_num [raceState, sourceConstants, pairOffset, dot]
    · apply pairContribution_eval isSqrt_real _ _ _ _ _ 1 <;>
        norm_num [raceState, sourceConstants, pairOffset, dot]
  rw [h1, h2]
  intro h
  have h3 := congrArg (fun t : Simulation ℝ => (t.a 1).x) (Option.some.inj h)
  norm_num [integrate] at h3

/-! ## The accumulator loop -/

section SchedulerFacts

variable {σ : Type} [FloorRing K]

/-- The physics loop drains `n` timesteps when `n*dt ≤ acc < (n+1)*dt`: it runs `n`
sweeps and assigns `acc - dt, acc - 2dt, .., acc - n*dt` to the accumulator. -/
theorem physicsLoop_eq (dt : K) (hdt : 0 < dt) (sw : σ → σ) (n : Nat) :
    ∀ st : Scheduler K σ, (n : K) * dt ≤ st.acc → st.acc < ((n : K) + 1) * dt →
      physicsLoop dt hdt sw st
        = { acc := st.acc - (n : K) * dt, sim := sw^[n] st.sim, count := st.count + n,
            trace := st.trace ++ (List.range n).map fun j : Nat => st.acc - ((j : K) + 1) * dt } := by
  induction n with
  | zero =>
    intro st _ h2
    have hlt : ¬ dt ≤ st.acc := by
      simp only [Nat.cast_zero, zero_add, one_mul] at h2
      exact not_le.mpr h2
    rw [physicsLoop, if_neg hlt]
    simp
  | succ n ih =>
    intro st h1 h2
    have hn : (0 : K) ≤ (n : K) := Nat.cast_nonneg n
    push_cast at h1 h2
    have hge : dt ≤ st.acc := by nlinarith
    rw [physicsLoop, if_pos hge]
    rw [ih _ (by simp only; nlinarith) (by simp only; nlinarith)]
    congr 1
    · push_cast
      ring
    · simp only
      omega
    · simp only
      rw [List.range_succ_eq_map, List.map_cons, List.map_map, List.append_assoc]
      congr 1
      simp only [List.singleton_append, Nat.cast_zero, zero_add, one_mul, List.cons.injEq,
        true_and]
      apply List.map_congr_left
      intro j _
      simp only [Function.comp_apply, Nat.cast_succ]
      ring

/-- The number of whole timesteps held by a non-negative accumulator. -/
theorem exists_steps (dt : K) (hdt : 0 < dt) (a : K) (ha : 0 ≤ a) :
    ∃ n : Nat, (n : K) * dt ≤ a ∧ a < ((n : K) + 1) * dt := by
  have hq : 0 ≤ a / dt := div_nonneg ha hdt.le
  have hfl : 0 ≤ ⌊a / dt⌋ := Int.floor_nonneg.mpr hq
  refine ⟨⌊a / dt⌋.toNat, ?_, ?_⟩
  · have h1 : ((⌊a / dt⌋.toNat : ℕ) : K) = ((⌊a / dt⌋ : ℤ) : K) := by
      have : ((⌊a / dt⌋.toNat : ℕ) : ℤ) = ⌊a / dt⌋ := Int.toNat_of_nonneg hfl
      exact_mod_cast congrArg (fun z : ℤ => (z : K)) this
    rw [h1]
    have := Int.floor_le (a / dt)
    calc ((⌊a / dt⌋ : ℤ) : K) * dt ≤ a / dt * dt := mul_le_mul_of_nonneg_right this hdt.le
      _ = a := div_mul_cancel₀ a hdt.ne'
  · have h1 : ((⌊a / dt⌋.toNat : ℕ) : K) = ((⌊a / dt⌋ : ℤ) : K) := by
      have : ((⌊a / dt⌋.toNat : ℕ) : ℤ) = ⌊a / dt⌋ := Int.toNat_of_nonneg hfl
      exact_mod_cast congrArg (fun z : ℤ => (z : K)) this
    rw [h1]
    have := Int.lt_floor_add_one (a / dt)
    calc a = a / dt * dt := (div_mul_cancel₀ a hdt.ne').symm
      _ < (((⌊a / dt⌋ : ℤ) : K) + 1) * dt := mul_lt_mul_of_pos_right this hdt

/-- One frame from an accumulator in `[0, dt)` with a non-negative delta. -/
theorem frame_spec (dt : K) (hdt : 0 < dt) (sw : σ → σ) (st : Scheduler K σ) (d : K)
    (h0 : 0 ≤ st.acc) (hd : 0 ≤ d) :
    ∃ n : Nat,
      (n : K) * dt ≤ st.acc + d ∧ st.acc + d < ((n : K) + 1) * dt ∧
      frame dt hdt sw st d
        = { acc := st.acc + d - (n : K) * dt, sim := sw^[n] st.sim, count := st.count + n,
            trace := st.trace ++ (List.range (n + 1)).map fun j : Nat => st.acc + d - (j : K) * dt } := by
  obtain ⟨n, hn1, hn2⟩ := exists_steps dt hdt (st.acc + d) (add_nonneg h0 hd)
  refine ⟨n, hn1, hn2, ?_⟩
  unfold frame
  rw [physicsLoop_eq dt hdt sw n _ hn1 hn2]
  congr 1
  simp only
  rw [List.range_succ_eq_map, List.map_cons, List.map_map, List.append_assoc]
  congr 1
  simp only [List.singleton_append, Nat.cast_zero, zero_mul, sub_zero, List.cons.injEq,
    true_and]
  apply List.map_congr_left
  intro j _
  simp only [Function.comp_apply, Nat.cast_succ]

theorem runFrames_cons (dt : K) (hdt : 0 < dt) (sw : σ → σ) (st : Scheduler K σ) (d : K)
    (ds : List K) :
    runFrames dt hdt sw st (d :: ds) = runFrames dt hdt sw (frame dt hdt sw st d) ds := rfl

theorem runFrames_append_singleton (dt : K) (hdt : 0 < dt) (sw : σ → σ) (st : Scheduler K σ)
    (ds : List K) (d : K) :
    runFrames dt hdt sw st (ds ++ [d]) = frame dt hdt sw (runFrames dt hdt sw st ds) d := by
  simp [runFrames, List.foldl_append]

/-- The invariant of a run of frames with non-negative deltas, started with the
accumulator in `[0, dt)`. -/
theorem runFrames_inv (dt : K) (hdt : 0 < dt) (sw : σ → σ) (deltas : List K) :
    ∀ st : Scheduler K σ, 0 ≤ st.acc → st.acc < dt → (∀ d ∈ deltas, 0 ≤ d) →
      (∀ a ∈ st.trace, 0 ≤ a) →
      0 ≤ (runFrames dt hdt sw st deltas).acc ∧ (runFrames dt hdt sw st deltas).acc < dt ∧
      (∀ a ∈ (runFrames dt hdt sw st deltas).trace, 0 ≤ a) ∧
      ∃ n : Nat, (runFrames dt hdt sw st deltas).count = st.count + n ∧
        (runFrames dt hdt sw st deltas).acc + (n : K) * dt = st.acc + deltas.sum ∧
        (runFrames dt hdt sw st deltas).sim = sw^[n] st.sim := by
  induction deltas with
  | nil =>
    intro st h0 h1 _ ht
    exact ⟨h0, h1, ht, 0, by simp [runFrames], by simp [runFrames], by simp [runFrames]⟩
  | cons d ds ih =>
    intro st h0 h1 hd ht
    have hd0 : 0 ≤ d := hd d (List.mem_cons_self d ds)
    obtain ⟨n1, hn1, hn2, hfr⟩ := frame_spec dt hdt sw st d h0 hd0
    rw [runFrames_cons]
    have hacc : (frame dt hdt sw st d).acc = st.acc + d - (n1 : K) * dt := by rw [hfr]
    have hcount : (frame dt hdt sw st d).count = st.count + n1 := by rw [hfr]
    have hsim : (frame dt hdt sw st d).sim = sw^[n1] st.sim := by rw [hfr]
    have htr : ∀ a ∈ (frame dt hdt sw st d).trace, 0 ≤ a := by
      rw [hfr]
      intro a ha
      simp only [List.mem_append, List.mem_map, List.mem_range] at ha
      rcases ha with ha | ⟨j, hj, rfl⟩
      · exact ht a ha
      · have hjn : (j : K) ≤ (n1 : K) := by exact_mod_cast Nat.lt_succ_iff.mp hj
        nlinarith
    obtain ⟨r0, r1, rt, n2, hc, ha, hs⟩ :=
      ih (frame dt hdt sw st d) (by rw [hacc]; linarith) (by rw [hacc]; linarith)
        (fun x hx => hd x (List.mem_cons_of_mem d hx)) htr
    refine ⟨r0, r1, rt, n1 + n2, ?_, ?_, ?_⟩
    · rw [hc, hcount]
      omega
    · rw [List.sum_cons]
      push_cast
      rw [hacc] at ha
      linarith
    · rw [hs, hsim, ← Function.iterate_add_apply, Nat.add_comm]

/-- A run whose non-negative deltas sum to `k * dt`, from the initial scheduler. -/
theorem runFrames_exact (dt : K) (hdt : 0 < dt) (sw : σ → σ) (s : σ) (k : Nat)
    (deltas : List K) (hnn : ∀ d ∈ deltas, 0 ≤ d) (hsum : deltas.sum = (k : K) * dt) :
    (runFrames dt hdt sw (initScheduler s) deltas).count = k ∧
    (runFrames dt hdt sw (initScheduler s) deltas).sim = sw^[k] s ∧
    (runFrames dt hdt sw (initScheduler s) deltas).acc = 0 := by
  obtain ⟨r0, r1, _, n, hc, ha, hs⟩ :=
    runFrames_inv dt hdt sw deltas (initScheduler s) (le_refl _) hdt hnn
      (by intro a ha; simp [initScheduler] at ha)
  change _ = 0 + n at hc
  change _ = (0 : K) + _ at ha
  change _ = sw^[n] s at hs
  rw [zero_add] at hc ha
  rw [hsum] at ha
  have hnk : n = k := by
    have h1 : (n : K) ≤ (k : K) := by
      by_contra hlt
      push_neg at hlt
      nlinarith
    have h2 : (k : K) < (n : K) + 1 := by
      by_contra hge
      push_neg at hge
      nlinarith
    have h3 : n ≤ k := by exact_mod_cast h1
    have h4 : k < n + 1 := by exact_mod_cast h2
    omega
  subst hnk
  refine ⟨hc, hs, ?_⟩
  linarith

end SchedulerFacts

/-! ## C2 and C7: the accumulator -/

/-- C2: for every timestep `dt > 0`, every `k` and every sequence of non-negative
frame deltas whose sum is exactly `k * dt`, running the per-frame step over the
sequence from the accumulator `0` performs exactly `k` sweeps, and the final
simulation state and accumulator are those obtained from the single delta
`k * dt`: `k` sweeps applied to the initial state, and accumulator `0`. -/
theorem accumulator_chunking {σ : Type} [FloorRing K] (dt : K) (hdt : 0 < dt) (sw : σ → σ)
    (s : σ) (k : Nat) (deltas : List K) (hnn : ∀ d ∈ deltas, 0 ≤ d)
    (hsum : deltas.sum = (k : K) * dt) :
    (runFrames dt hdt sw (initScheduler s) deltas).count = k ∧
    (runFrames dt hdt sw (initScheduler s) [(k : K) * dt]).count = k ∧
    (runFrames dt hdt sw (initScheduler s) deltas).sim = sw^[k] s ∧
    (runFrames dt hdt sw (initScheduler s) deltas).sim
      = (runFrames dt hdt sw (initScheduler s) [(k : K) * dt]).sim ∧
    (runFrames dt hdt sw (initScheduler s) deltas).acc = 0 ∧
    (runFrames dt hdt sw (initScheduler s) deltas).acc
      = (runFrames dt hdt sw (initScheduler s) [(k : K) * dt]).acc := by
  obtain ⟨h1, h2, h3⟩ := runFrames_exact dt hdt sw s k deltas hnn hsum
  have hk : (0 : K) ≤ (k : K) * dt := mul_nonneg (Nat.cast_nonneg k) hdt.le
  obtain ⟨g1, g2, g3⟩ := runFrames_exact dt hdt sw s k [(k : K) * dt]
    (by intro d hd; rw [List.mem_singleton] at hd; rw [hd]; exact hk) (by simp)
  exact ⟨h1, g1, h2, by rw [h2, g2], h3, by rw [h3, g3]⟩

/-- C7: for every timestep `dt > 0` and every sequence of non-negative frame
deltas, with the accumulator starting at `0`: at the start of every frame the
accumulator is in `[0, dt)`; during the frame it takes exactly the values
`acc + delta, acc + delta - dt, .., acc + delta - n*dt`, where `n` is the number
of sweeps of the frame (one addition of the delta, then one subtraction of
`dt` per sweep); every value it has ever taken is non-negative; and at the end
of the frame it is again in `[0, dt)`. -/
theorem accumulator_invariant {σ : Type} [FloorRing K] (dt : K) (hdt : 0 < dt)
    (sw : σ → σ) (s : σ) (deltas : List K) (d : K) (hnn : ∀ x ∈ deltas, 0 ≤ x)
    (hd : 0 ≤ d) :
    0 ≤ (runFrames dt hdt sw (initScheduler s) deltas).acc ∧
    (runFrames dt hdt sw (initScheduler s) deltas).acc < dt ∧
    (∃ n : Nat,
      (runFrames dt hdt sw (initScheduler s) (deltas ++ [d])).count
        = (runFrames dt hdt sw (initScheduler s) deltas).count + n ∧
      (runFrames dt hdt sw (initScheduler s) (deltas ++ [d])).trace
        = (runFrames dt hdt sw (initScheduler s) deltas).trace
          ++ (List.range (n + 1)).map fun j : Nat =>
              (runFrames dt hdt sw (initScheduler s) deltas).acc + d - (j : K) * dt) ∧
    (∀ a ∈ (runFrames dt hdt sw (initScheduler s) (deltas ++ [d])).trace, 0 ≤ a) ∧
    0 ≤ (runFrames dt hdt sw (initScheduler s) (deltas ++ [d])).acc ∧
    (runFrames dt hdt sw (initScheduler s) (deltas ++ [d])).acc < dt := by
  obtain ⟨r0, r1, _, _⟩ :=
    runFrames_inv dt hdt sw deltas (initScheduler s) (le_refl _) hdt hnn
      (by intro a ha; simp [initScheduler] at ha)
  obtain ⟨q0, q1, qt, _⟩ :=
    runFrames_inv dt hdt sw (deltas ++ [d]) (initScheduler s) (le_refl _) hdt
      (by
        intro x hx
        rcases List.mem_append.mp hx with h | h
        · exact hnn x h
        · rw [List.mem_singleton] at h
          rw [h]
          exact hd)
      (by intro a ha; simp [initScheduler] at ha)
  refine ⟨r0, r1, ?_, qt, q0, q1⟩
  obtain ⟨n, _, _, hfr⟩ :=
    frame_spec dt hdt sw (runFrames dt hdt sw (initScheduler s) deltas) d r0 hd
  refine ⟨n, ?_, ?_⟩
  · rw [runFrames_append_singleton, hfr]
  · rw [runFrames_append_singleton, hfr]

/-! ## C4: argument validation -/

/-- C4: for every parsed body count `n`: the range checks of lines 83-93 pass
exactly when `0 < n ≤ 1024`; startup can reach the allocation of the body
arrays only then, and does reach it then (with `N_POINTS = n`) once the window
and the GL loader are set up; for `n ≤ 0` and for `n > 1024` the program returns
`EXIT_FAILURE` before any body array is allocated, whatever the window system
does. -/
theorem startup_allocates_iff (n : Int) (windowCreated gladLoaded : Bool) :
    ((∃ N, validatePoints n = Except.ok N) ↔ (0 < n ∧ n ≤ 1024)) ∧
    ((∃ N, startup 2 n windowCreated gladLoaded = Startup.allocate N) → (0 < n ∧ n ≤ 1024)) ∧
    ((∃ N, startup 2 n true true = Startup.allocate N) ↔ (0 < n ∧ n ≤ 1024)) ∧
    ((0 < n ∧ n ≤ 1024) → startup 2 n true true = Startup.allocate n.toNat) ∧
    ((n ≤ 0 ∨ 1024 < n) → startup 2 n windowCreated gladLoaded = Startup.exit EXIT_FAILURE) := by
  have hcast : ((1024 : ℚ) < (n : ℚ)) ↔ 1024 < n := by
    constructor
    · intro h
      exact_mod_cast h
    · intro h
      exact_mod_cast h
  have hmod : 0 < n → n ≤ 1024 → (n % 2 ^ 32).toNat = n.toNat := by
    intro h1 h2
    have : n % 2 ^ 32 = n := Int.emod_eq_of_lt h1.le (by norm_num; omega)
    rw [this]
  by_cases h1 : n ≤ 0
  · have hv : validatePoints n = Except.error EXIT_FAILURE := by simp [validatePoints, h1]
    have hst : startup 2 n windowCreated gladLoaded = Startup.exit EXIT_FAILURE := by
      simp [startup, hv]
    have hst2 : startup 2 n true true = Startup.exit EXIT_FAILURE := by
      simp [startup, hv]
    refine ⟨?_, ?_, ?_, ?_, ?_⟩
    · simp [hv]
      omega
    · simp [hst]
    · simp [hst2]
      omega
    · intro h
      omega
    · intro _
      exact hst
  · by_cases h2 : 1024 < n
    · have hv : validatePoints n = Except.error EXIT_FAILURE := by
        simp [validatePoints, h1, hcast.mpr h2]
      have hst : startup 2 n windowCreated gladLoaded = Startup.exit EXIT_FAILURE := by
        simp [startup, hv]
      have hst2 : startup 2 n true true = Startup.exit EXIT_FAILURE := by
        simp [startup, hv]
      refine ⟨?_, ?_, ?_, ?_, ?_⟩
      · simp [hv]
        omega
      · simp [hst]
      · simp [hst2]
        omega
      · intro h
        omega
      · intro _
        exact hst
    · have hq : ¬ ((1024 : ℚ) < (n : ℚ)) := fun h => h2 (hcast.mp h)
      have hv : validatePoints n = Except.ok n.toNat := by
        simp only [validatePoints, h1, hq, if_false]
        rw [hmod (by omega) (by omega)]
      have hst2 : startup 2 n true true = Startup.allocate n.toNat := by
        simp [startup, hv]
      have hr : 0 < n ∧ n ≤ 1024 := ⟨by omega, by omega⟩
      refine ⟨?_, ?_, ?_, ?_, ?_⟩
      · simp [hv, hr]
      · intro _
        exact hr
      · simp [hst2, hr]
      · intro _
        exact hst2
      · intro h
        omega

/-! ## C6: the stored masses -/

theorem initBodies_m (dist mass_dist : Nat → K) (N : Nat) (sim : Simulation K) :
    ∀ i, i < N → (initBodies dist mass_dist N sim).m i = mass_dist i := by
  induction N with
  | zero => intro i hi; exact absurd hi (Nat.not_lt_zero i)
  | succ n ih =>
    intro i hi
    by_cases hin : i = n
    · subst hin
      simp [initBodies, initBody]
    · simp only [initBodies, initBody, Function.update_noteq hin]
      exact ih i (by omega)

/-- C6 (amended): for every sequence of values produced by the mass distribution
during the initialisation loop, the constructed store holds the `i`-th draw,
unchanged, as the mass of body `i`; hence `mass[i] > 0` holds for every body
exactly when every one of the `N` draws is positive. -/
theorem initBodies_mass_is_draw (dist mass_dist : Nat → K) (N : Nat) (sim : Simulation K) :
    (∀ i, i < N → (initBodies dist mass_dist N sim).m i = mass_dist i) ∧
    ((∀ i, i < N → 0 < (initBodies dist mass_dist N sim).m i)
      ↔ (∀ i, i < N → 0 < mass_dist i)) := by
  refine ⟨initBodies_m dist mass_dist N sim, ?_⟩
  constructor
  · intro h i hi
    rw [← initBodies_m dist mass_dist N sim i hi]
    exact h i hi
  · intro h i hi
    rw [initBodies_m dist mass_dist N sim i hi]
    exact h i hi

/-- C6 (counterexample): with the mass draws `25000, -3` the store of two bodies
keeps `-3` as the mass of body 1. -/
theorem initBodies_stores_nonpositive_mass :
    ¬ (∀ i, i < 2 → 0 < (initBodies (fun _ => (0 : ℚ)) badMassDraws 2 freshArrays).m i) := by
  intro h
  have h1 := h 1 (by norm_num)
  rw [initBodies_m _ _ 2 freshArrays 1 (by norm_num)] at h1
  norm_num [badMassDraws] at h1

/-! ## A single body in exact arithmetic -/

/-- With one body the sweep is always defined: the force loop skips the only
index, and the integrator runs with the zero acceleration. -/
theorem sweep_one (sqrt : K → K) (c : Constants K) (s : Simulation K) :
    sweep sqrt c 1 s = some (integrate c 1 s fun _ => 0) := by
  apply sweep_of_accels
  intro i hi
  interval_cases i
  simp [evaluate_acceleration]

/-! ## C3: two mirrored bodies -/

theorem Vec2.neg_neg_vec (u : Vec2 K) : -(-u) = u := by
  ext <;> simp

/-- Reflecting both positions through the origin reflects the contribution. -/
theorem pairContribution_neg (sqrt : K → K) (c : Constants K) (p1 p2 : Vec2 K) (m1 m2 : K) :
    pairContribution sqrt c (-p1) (-p2) m1 m2
      = (pairContribution sqrt c p1 p2 m1 m2).map fun f => -f := by
  by_cases hm : m1 + m2 = 0
  · simp [pairContribution, divs, hm]
  · have hw : pairOffset (-p1) (-p2) m1 m2 = -pairOffset p1 p2 m1 m2 := by
      ext <;> simp [pairOffset] <;> field_simp <;> ring
    have hd : dot (-pairOffset p1 p2 m1 m2) (-pairOffset p1 p2 m1 m2)
        = dot (pairOffset p1 p2 m1 m2) (pairOffset p1 p2 m1 m2) := by
      simp [dot]
    rw [pairContribution_eq sqrt c _ _ m1 m2 hm, pairContribution_eq sqrt c _ _ m1 m2 hm,
      hw, hd]
    by_cases h0 : sqrt (dot (pairOffset p1 p2 m1 m2) (pairOffset p1 p2 m1 m2)) = 0
    · simp [h0]
    · simp only [h0, if_false, divs]
      split_ifs
      · rfl
      · simp only [Option.map_some', Option.some.injEq]
        ext <;> simp <;> ring

/-- The first sweep of a mirrored pair at rest. -/
theorem mirror_first_sweep (sqrt : K → K) (c : Constants K) (s s1 : Simulation K)
    (hm : s.m 0 = s.m 1) (hp : s.p 1 = -s.p 0) (hv0 : s.v 0 = 0) (hv1 : s.v 1 = 0)
    (ha0 : s.a 0 = 0) (ha1 : s.a 1 = 0) (h : sweep sqrt c 2 s = some s1) :
    s1.p 0 = s.p 0 ∧ s1.p 1 = -s.p 0 ∧ s1.a 1 = -s1.a 0 ∧ s1.v 1 = -s1.v 0 := by
  obtain ⟨g, rfl, hg⟩ := sweep_some sqrt c 2 s s1 h
  have h0 := hg 0 (by norm_num)
  have h1 := hg 1 (by norm_num)
  rw [evaluate_acceleration_two_zero] at h0
  rw [evaluate_acceleration_two_one] at h1
  have hseen : positionsSeenBy c s 1 0 = s.p 0 := by
    ext <;> simp [positionsSeenBy, hv0, ha0]
  have e0 : positionsSeenBy c s 0 0 = s.p 0 := rfl
  have e1 : positionsSeenBy c s 0 1 = s.p 1 := rfl
  have e2 : positionsSeenBy c s 1 1 = s.p 1 := by simp [positionsSeenBy]
  rw [e0, e1] at h0
  rw [hseen, e2, hp, ← hm] at h1
  have h1b : pairContribution sqrt c (-s.p 0) (-(-s.p 0)) (s.m 0) (s.m 0) = some (g 1) := by
    rw [Vec2.neg_neg_vec]
    exact h1
  rw [pairContribution_neg] at h1b
  rw [hp, ← hm] at h0
  rw [h0] at h1b
  simp only [Option.map_some', Option.some.injEq] at h1b
  refine ⟨?_, ?_, ?_, ?_⟩
  · ext <;> simp [integrate, hv0, ha0]
  · ext <;> simp [integrate, hv1, ha1, hp]
  · simp [integrate, ← h1b]
  · ext <;> simp [integrate, hv0, hv1, ha0, ha1, ← h1b]

/-- One sweep maps reflected positions, velocities and accelerations to reflected
positions. -/
theorem mirror_next_positions (sqrt : K → K) (c : Constants K) (s s1 : Simulation K)
    (hp : s.p 1 = -s.p 0) (hv : s.v 1 = -s.v 0) (ha : s.a 1 = -s.a 0)
    (h : sweep sqrt c 2 s = some s1) : s1.p 0 = -s1.p 1 := by
  obtain ⟨g, rfl, _⟩ := sweep_some sqrt c 2 s s1 h
  ext <;> simp [integrate, hp, hv, ha] <;> ring

/-- The in-place sweep of two bodies is carried out exactly when both contributions
are defined. -/
theorem sweep_two_isSome (sqrt : K → K) (c : Constants K) (s : Simulation K) :
    (sweep sqrt c 2 s).isSome ↔
      (pairContribution sqrt c (s.p 0) (s.p 1) (s.m 0) (s.m 1)).isSome ∧
      (pairContribution sqrt c (s.p 1) (positionsSeenBy c s 1 0) (s.m 1) (s.m 0)).isSome := by
  have e0 : evaluate_acceleration sqrt c 0 (positionsSeenBy c s 0) s.m 2
      = pairContribution sqrt c (s.p 0) (s.p 1) (s.m 0) (s.m 1) := by
    rw [evaluate_acceleration_two_zero]
    rfl
  have e1 : evaluate_acceleration sqrt c 1 (positionsSeenBy c s 1) s.m 2
      = pairContribution sqrt c (s.p 1) (positionsSeenBy c s 1 0) (s.m 1) (s.m 0) := by
    rw [evaluate_acceleration_two_one]
    have : positionsSeenBy c s 1 1 = s.p 1 := by simp [positionsSeenBy]
    rw [this]
  constructor
  · intro h
    obtain ⟨s2, hs2⟩ := Option.isSome_iff_exists.mp h
    obtain ⟨g, _, hg⟩ := sweep_some sqrt c 2 s s2 hs2
    have h0 := hg 0 (by norm_num)
    have h1 := hg 1 (by norm_num)
    rw [e0] at h0
    rw [e1] at h1
    simp [h0, h1]
  · rintro ⟨h0, h1⟩
    obtain ⟨f0, hf0⟩ := Option.isSome_iff_exists.mp h0
    obtain ⟨f1, hf1⟩ := Option.isSome_iff_exists.mp h1
    have hsw : sweep sqrt c 2 s = some (integrate c 2 s fun i => if i = 0 then f0 else f1) := by
      apply sweep_of_accels
      intro i hi
      interval_cases i
      · rw [e0]
        simpa using hf0
      · rw [e1]
        simpa using hf1
    simp [hsw]

/-- C3 (amended): for every 2-body state with equal positive masses, positions `p`
and `-p`, zero velocities and zero prior accelerations: after `k ≤ 2` sweeps
carried out without a division by zero the two positions are still reflections
of each other through the origin, `position[0] = -position[1]`; when `p` is
not the origin the first sweep is carried out and leaves the positions at `p` and
`-p`, and the second sweep is carried out exactly when the position to which it
advances body 0 is not the position of body 1. -/
theorem mirror_two_sweeps {sqrt : K → K} (hs : IsSqrt sqrt) (c : Constants K)
    (hS : 0 < c.SOFTENING) (s : Simulation K) (hm0 : 0 < s.m 0) (hm : s.m 0 = s.m 1)
    (hp : s.p 1 = -s.p 0) (hv0 : s.v 0 = 0) (hv1 : s.v 1 = 0)
    (ha0 : s.a 0 = 0) (ha1 : s.a 1 = 0) :
    (∀ k, k ≤ 2 → ∀ s2, sweeps sqrt c 2 k s = some s2 → s2.p 0 = -s2.p 1) ∧
    (s.p 0 ≠ 0 → ∃ s1, sweeps sqrt c 2 1 s = some s1 ∧ s1.p 0 = s.p 0 ∧ s1.p 1 = -s.p 0 ∧
      ((sweeps sqrt c 2 2 s).isSome ↔ positionsSeenBy c s1 1 0 ≠ s1.p 1)) := by
  constructor
  · intro k hk s2 h
    interval_cases k
    · simp only [sweeps, Option.some.injEq] at h
      subst h
      rw [hp, Vec2.neg_neg_vec]
    · simp only [sweeps, Option.some_bind] at h
      obtain ⟨h1, h2, _, _⟩ := mirror_first_sweep sqrt c s s2 hm hp hv0 hv1 ha0 ha1 h
      rw [h1, h2, Vec2.neg_neg_vec]
    · simp only [sweeps, Option.some_bind] at h
      cases h1 : sweep sqrt c 2 s with
      | none => simp [h1] at h
      | some s1 =>
        rw [h1, Option.some_bind] at h
        obtain ⟨e1, e2, e3, e4⟩ := mirror_first_sweep sqrt c s s1 hm hp hv0 hv1 ha0 ha1 h1
        exact mirror_next_positions sqrt c s1 s2 (by rw [e2, e1]) e4 e3 h
  · intro hne
    have hmm : s.m 0 + s.m 0 ≠ 0 := by positivity
    have hoff : pairOffset (s.p 0) (-s.p 0) (s.m 0) (s.m 0) = -s.p 0 := by
      ext <;> simp [pairOffset]
    have hoff2 : pairOffset (-s.p 0) (s.p 0) (s.m 0) (s.m 0) = s.p 0 := by
      ext <;> simp [pairOffset]
    have hne2 : -s.p 0 ≠ 0 := by
      intro h0
      apply hne
      rw [← Vec2.neg_neg_vec (s.p 0), h0]
      ext <;> simp
    have d0 : (pairContribution sqrt c (s.p 0) (-s.p 0) (s.m 0) (s.m 0)).isSome := by
      rw [pairContribution_isSome_iff hs c _ _ _ _ hmm hS, hoff]
      exact hne2
    have d1 : (pairContribution sqrt c (-s.p 0) (s.p 0) (s.m 0) (s.m 0)).isSome := by
      rw [pairContribution_isSome_iff hs c _ _ _ _ hmm hS, hoff2]
      exact hne
    obtain ⟨f0, hf0⟩ := Option.isSome_iff_exists.mp d0
    obtain ⟨f1, hf1⟩ := Option.isSome_iff_exists.mp d1
    have hsw : sweep sqrt c 2 s
        = some (integrate c 2 s fun i => if i = 0 then f0 else f1) := by
      apply sweep_two
      · rw [hp, ← hm]
        simpa using hf0
      · rw [hp, ← hm, hv0, ha0]
        have : s.p 0 + (muls (0 : Vec2 K) c.TIME_STEP
            + muls (smul (1 / 2) (0 : Vec2 K)) (c.TIME_STEP ^ 2)) = s.p 0 := by
          ext <;> simp
        rw [this]
        simpa using hf1
    have hp0 : (integrate c 2 s fun i => if i = 0 then f0 else f1).p 0 = s.p 0 := by
      ext <;> simp [integrate, hv0, ha0]
    have hp1 : (integrate c 2 s fun i => if i = 0 then f0 else f1).p 1 = -s.p 0 := by
      ext <;> simp [integrate, hv1, ha1, hp]
    refine ⟨_, by simp only [sweeps, Option.some_bind]; exact hsw, hp0, hp1, ?_⟩
    have hs2 : sweeps sqrt c 2 2 s
        = sweep sqrt c 2 (integrate c 2 s fun i => if i = 0 then f0 else f1) := by
      simp only [sweeps, Option.some_bind, hsw]
    rw [hs2, sweep_two_isSome, hp0, hp1]
    have hm1 : (integrate c 2 s fun i => if i = 0 then f0 else f1).m = s.m := rfl
    rw [hm1, ← hm]
    have hfirst : (pairContribution sqrt c (s.p 0) (-s.p 0) (s.m 0) (s.m 0)).isSome = true := d0
    rw [hfirst, pairContribution_isSome_iff hs c _ _ _ _ hmm hS]
    simp only [true_and]
    have hoff3 : ∀ q : Vec2 K, pairOffset (-s.p 0) q (s.m 0) (s.m 0) ≠ 0 ↔ q ≠ -s.p 0 := by
      intro q
      have hx : (pairOffset (-s.p 0) q (s.m 0) (s.m 0)).x = (q.x + (s.p 0).x) / 2 := by
        simp [pairOffset]
        field_simp
        ring
      have hy : (pairOffset (-s.p 0) q (s.m 0) (s.m 0)).y = (q.y + (s.p 0).y) / 2 := by
        simp [pairOffset]
        field_simp
        ring
      constructor
      · intro h hq
        apply h
        ext
        · rw [hx, hq]
          simp
        · rw [hy, hq]
          simp
      · intro h h0
        apply h
        have h0x := congrArg Vec2.x h0
        have h0y := congrArg Vec2.y h0
        rw [hx] at h0x
        rw [hy] at h0y
        simp only [Vec2.zero_x, Vec2.zero_y] at h0x h0y
        ext
        · simp only [Vec2.neg_x]
          linarith
        · simp only [Vec2.neg_y]
          linarith
    exact hoff3 _

/-- C3 (counterexample): two masses `10^4` at rest at `(1, 0)` and `(-1, 0)`: the
first three sweeps are all carried out, and after the third the positions are
`959/960` and `-95435379359/95534900640` on the first axis, which are not
reflections of each other. -/
theorem mirror_broken_after_three_sweeps :
    ∃ s3, sweeps Real.sqrt (sourceConstants ℝ) 2 3 mirrorState = some s3 ∧
      s3.p 0 ≠ -s3.p 1 := by
  have h1 : sweep Real.sqrt (sourceConstants ℝ) 2 mirrorState
      = some (integrate (sourceConstants ℝ) 2 mirrorState
          fun i => if i = 0 then ⟨-5, 0⟩ else ⟨5, 0⟩) := by
    apply sweep_two
    · apply pairContribution_eval isSqrt_real _ _ _ _ _ 1 <;>
        norm_num [mirrorState, sourceConstants, pairOffset, dot]
    · apply pairContribution_eval isSqrt_real _ _ _ _ _ 1 <;>
        norm_num [mirrorState, sourceConstants, pairOffset, dot]
  have h2 : sweep Real.sqrt (sourceConstants ℝ) 2
        (integrate (sourceConstants ℝ) 2 mirrorState
          fun i => if i = 0 then ⟨-5, 0⟩ else ⟨5, 0⟩)
      = some (integrate (sourceConstants ℝ) 2
          (integrate (sourceConstants ℝ) 2 mirrorState
            fun i => if i = 0 then ⟨-5, 0⟩ else ⟨5, 0⟩)
          fun i => if i = 0 then ⟨-5, 0⟩ else ⟨331776000 / 66343681, 0⟩) := by
    apply sweep_two
    · apply pairContribution_eval isSqrt_real _ _ _ _ _ 1 <;>
        norm_num [integrate, mirrorState, sourceConstants, pairOffset, dot]
    · apply pairContribution_eval isSqrt_real _ _ _ _ _ (5759 / 5760) <;>
        norm_num [integrate, mirrorState, sourceConstants, pairOffset, dot]
  have h3 : sweep Real.sqrt (sourceConstants ℝ) 2
        (integrate (sourceConstants ℝ) 2
          (integrate (sourceConstants ℝ) 2 mirrorState
            fun i => if i = 0 then ⟨-5, 0⟩ else ⟨5, 0⟩)
          fun i => if i = 0 then ⟨-5, 0⟩ else ⟨331776000 / 66343681, 0⟩)
      = some (integrate (sourceConstants ℝ) 2
          (integrate (sourceConstants ℝ) 2
            (integrate (sourceConstants ℝ) 2 mirrorState
              fun i => if i = 0 then ⟨-5, 0⟩ else ⟨5, 0⟩)
            fun i => if i = 0 then ⟨-5, 0⟩ else ⟨331776000 / 66343681, 0⟩)
          fun i => if i = 0 then ⟨-82944000 / 16583041, 0⟩
            else ⟨20736000 / 4144321, 0⟩) := by
    apply sweep_two
    · apply pairContribution_eval isSqrt_real _ _ _ _ _ (2879 / 2880) <;>
        norm_num [integrate, mirrorState, sourceConstants, pairOffset, dot]
    · apply pairContribution_eval isSqrt_real _ _ _ _ _ (1439 / 1440) <;>
        norm_num [integrate, mirrorState, sourceConstants, pairOffset, dot]
  have h123 : sweeps Real.sqrt (sourceConstants ℝ) 2 3 mirrorState
      = some (integrate (sourceConstants ℝ) 2
          (integrate (sourceConstants ℝ) 2
            (integrate (sourceConstants ℝ) 2 mirrorState
              fun i => if i = 0 then ⟨-5, 0⟩ else ⟨5, 0⟩)
            fun i => if i = 0 then ⟨-5, 0⟩ else ⟨331776000 / 66343681, 0⟩)
          fun i => if i = 0 then ⟨-82944000 / 16583041, 0⟩
            else ⟨20736000 / 4144321, 0⟩) := by
    simp only [sweeps, Option.some_bind, h1, h2, h3]
  refine ⟨_, h123, ?_⟩
  intro h
  have hx := congrArg Vec2.x h
  norm_num [integrate, mirrorState, sourceConstants] at hx

/-! ## C10: the centre-of-mass formula against the direct separation -/

theorem Vec2.sub_ne_zero_of_ne {u v : Vec2 K} (h : u ≠ v) : v - u ≠ 0 := by
  intro h0
  apply h
  have hx := congrArg Vec2.x h0
  have hy := congrArg Vec2.y h0
  simp only [Vec2.sub_x, Vec2.sub_y, Vec2.zero_x, Vec2.zero_y] at hx hy
  ext
  · linarith
  · linarith

theorem Vec2.dot_self_pos {w : Vec2 K} (h : w ≠ 0) : 0 < dot w w := by
  rcases (Vec2.dot_self_nonneg w).lt_or_eq with h1 | h1
  · exact h1
  · exact absurd (Vec2.dot_self_eq_zero h1.symm) h

/-- C10 (amended): in exact arithmetic (the operations of lines 276-281 without
rounding, `fl = id`), for all positive masses and all distinct positions
`p1 ≠ p2` (positive `G` and softening): the centre of mass satisfies
`com - p1 = (m2 / (m1 + m2)) * (p2 - p1)`; the contribution of body 2 to the
acceleration of body 1 is defined and equals
`((p2 - p1) / |p2 - p1|) * (G*m1*m2 / ((m2/(m1+m2))^2 * |p2 - p1|^2 + SOFTENING))`,
with `|p2 - p1| > 0`; in particular it is a strictly positive multiple of
`p2 - p1`. -/
theorem pairContribution_direct {sqrt : K → K} (hs : IsSqrt sqrt) (c : Constants K)
    (hG : 0 < c.GRAVITY_CONSTANT) (hS : 0 < c.SOFTENING) (p1 p2 : Vec2 K) (m1 m2 : K)
    (hm1 : 0 < m1) (hm2 : 0 < m2) (hne : p1 ≠ p2) :
    pairContributionFl id sqrt c p1 p2 m1 m2 = pairContribution sqrt c p1 p2 m1 m2 ∧
    (∃ com, divs (muls p1 m1 + muls p2 m2) (m1 + m2) = some com ∧
        com - p1 = smul (m2 / (m1 + m2)) (p2 - p1)) ∧
    pairContribution sqrt c p1 p2 m1 m2
      = some (muls (muls (p2 - p1) (1 / length sqrt (p2 - p1)))
          (c.GRAVITY_CONSTANT * m1 * m2
            / ((m2 / (m1 + m2)) ^ 2 * length sqrt (p2 - p1) ^ 2 + c.SOFTENING))) ∧
    0 < length sqrt (p2 - p1) ∧
    ∃ t, 0 < t ∧ pairContribution sqrt c p1 p2 m1 m2 = some (smul t (p2 - p1)) := by
  have hm : m1 + m2 ≠ 0 := by positivity
  have hmpos : 0 < m1 + m2 := by positivity
  have hD : p2 - p1 ≠ 0 := Vec2.sub_ne_zero_of_ne hne
  have hdpos : 0 < dot (p2 - p1) (p2 - p1) := Vec2.dot_self_pos hD
  have hL : 0 < length sqrt (p2 - p1) := hs.sqrt_pos hdpos
  have hLL : length sqrt (p2 - p1) * length sqrt (p2 - p1) = dot (p2 - p1) (p2 - p1) :=
    (hs _ hdpos.le).2
  have hlam : 0 < m2 / (m1 + m2) := by positivity
  have hoff : pairOffset p1 p2 m1 m2 = smul (m2 / (m1 + m2)) (p2 - p1) := by
    ext <;> simp [pairOffset] <;> field_simp <;> ring
  have hr : 0 < m2 / (m1 + m2) * length sqrt (p2 - p1) := by positivity
  have hrr : m2 / (m1 + m2) * length sqrt (p2 - p1) * (m2 / (m1 + m2) * length sqrt (p2 - p1))
      = dot (pairOffset p1 p2 m1 m2) (pairOffset p1 p2 m1 m2) := by
    rw [hoff]
    have : dot (smul (m2 / (m1 + m2)) (p2 - p1)) (smul (m2 / (m1 + m2)) (p2 - p1))
        = (m2 / (m1 + m2)) * (m2 / (m1 + m2)) * dot (p2 - p1) (p2 - p1) := by
      simp only [dot, Vec2.smul_x, Vec2.smul_y]
      ring
    rw [this, ← hLL]
    ring
  have hSne : m2 / (m1 + m2) * length sqrt (p2 - p1) * (m2 / (m1 + m2) * length sqrt (p2 - p1))
      + c.SOFTENING ≠ 0 := by positivity
  have hval := pairContribution_of_length hs c p1 p2 m1 m2 _ hm hr hrr hSne
  have hden : 0 < (m2 / (m1 + m2)) ^ 2 * length sqrt (p2 - p1) ^ 2 + c.SOFTENING := by
    positivity
  have hform : pairContribution sqrt c p1 p2 m1 m2
      = some (muls (muls (p2 - p1) (1 / length sqrt (p2 - p1)))
          (c.GRAVITY_CONSTANT * m1 * m2
            / ((m2 / (m1 + m2)) ^ 2 * length sqrt (p2 - p1) ^ 2 + c.SOFTENING))) := by
    rw [hval, hoff]
    congr 1
    ext
    · simp only [Vec2.smul_x, Vec2.muls_x]
      field_simp
      ring
    · simp only [Vec2.smul_y, Vec2.muls_y]
      field_simp
      ring
  refine ⟨rfl, ⟨⟨(p1.x * m1 + p2.x * m2) / (m1 + m2), (p1.y * m1 + p2.y * m2) / (m1 + m2)⟩,
    by simp [divs, hm], hoff⟩, hform, hL, ?_⟩
  refine ⟨1 / length sqrt (p2 - p1) * (c.GRAVITY_CONSTANT * m1 * m2
    / ((m2 / (m1 + m2)) ^ 2 * length sqrt (p2 - p1) ^ 2 + c.SOFTENING)), by positivity, ?_⟩
  rw [hform]
  congr 1
  ext
  · simp only [Vec2.smul_x, Vec2.muls_x, Vec2.sub_x]
    ring
  · simp only [Vec2.smul_y, Vec2.muls_y, Vec2.sub_y]
    ring

/-! ## C8 and C9: coincident bodies and the softening bound -/

/-- A sweep in which one force evaluation is undefined is undefined. -/
theorem sweep_none (sqrt : K → K) (c : Constants K) (N : Nat) (s : Simulation K) (i : Nat)
    (hi : i < N)
    (h : evaluate_acceleration sqrt c i (positionsSeenBy c s i) s.m N = none) :
    sweep sqrt c N s = none := by
  cases hsw : sweep sqrt c N s with
  | none => rfl
  | some s2 =>
    obtain ⟨g, _, hg⟩ := sweep_some sqrt c N s s2 hsw
    rw [hg i hi] at h
    exact absurd h (by simp)

/-- Two bodies at one position with a non-zero mass sum: the normalisation of
`com - p1` divides by zero. -/
theorem pairContribution_coincident {sqrt : K → K} (hs : IsSqrt sqrt) (c : Constants K)
    (p : Vec2 K) (m1 m2 : K) (hm : m1 + m2 ≠ 0) :
    pairContribution sqrt c p p m1 m2 = none := by
  have hoff : pairOffset p p m1 m2 = 0 := by
    ext <;> simp [pairOffset] <;> field_simp <;> ring
  rw [pairContribution_eq sqrt c p p m1 m2 hm, hoff]
  have : dot (0 : Vec2 K) 0 = 0 := by simp [dot]
  simp [this, hs.sqrt_zero]

/-- Wherever the contribution is defined its length is at most `G*m1*m2/SOFTENING`. -/
theorem pairContribution_length_le {sqrt : K → K} (hs : IsSqrt sqrt) (c : Constants K)
    (hG : 0 ≤ c.GRAVITY_CONSTANT) (hS : 0 < c.SOFTENING) (p1 p2 : Vec2 K) (m1 m2 : K)
    (hm1 : 0 < m1) (hm2 : 0 < m2) (f : Vec2 K)
    (h : pairContribution sqrt c p1 p2 m1 m2 = some f) :
    length sqrt f ≤ c.GRAVITY_CONSTANT * m1 * m2 / c.SOFTENING := by
  have hm : m1 + m2 ≠ 0 := by positivity
  rw [pairContribution_eq sqrt c p1 p2 m1 m2 hm] at h
  obtain ⟨hL0, hLL⟩ := hs _ (Vec2.dot_self_nonneg (pairOffset p1 p2 m1 m2))
  generalize sqrt (dot (pairOffset p1 p2 m1 m2) (pairOffset p1 p2 m1 m2)) = L at h hL0 hLL
  by_cases h0 : L = 0
  · simp [h0] at h
  · have hL : 0 < L := lt_of_le_of_ne hL0 (Ne.symm h0)
    have hden : 0 < L * L + c.SOFTENING := by positivity
    simp only [h0, if_false, divs, hden.ne', Option.some.injEq] at h
    subst h
    have hq : 0 ≤ c.GRAVITY_CONSTANT * m1 * m2 / (L * L + c.SOFTENING) := by positivity
    have hdot : dot
        (⟨(pairOffset p1 p2 m1 m2).x * (1 / L) * c.GRAVITY_CONSTANT * m1 * m2
            / (L * L + c.SOFTENING),
          (pairOffset p1 p2 m1 m2).y * (1 / L) * c.GRAVITY_CONSTANT * m1 * m2
            / (L * L + c.SOFTENING)⟩ : Vec2 K)
        ⟨(pairOffset p1 p2 m1 m2).x * (1 / L) * c.GRAVITY_CONSTANT * m1 * m2
            / (L * L + c.SOFTENING),
          (pairOffset p1 p2 m1 m2).y * (1 / L) * c.GRAVITY_CONSTANT * m1 * m2
            / (L * L + c.SOFTENING)⟩
        = c.GRAVITY_CONSTANT * m1 * m2 / (L * L + c.SOFTENING)
          * (c.GRAVITY_CONSTANT * m1 * m2 / (L * L + c.SOFTENING)) := by
      have hw : (pairOffset p1 p2 m1 m2).x * (pairOffset p1 p2 m1 m2).x
          + (pairOffset p1 p2 m1 m2).y * (pairOffset p1 p2 m1 m2).y = L * L := hLL.symm
      have hone : ((pairOffset p1 p2 m1 m2).x * (pairOffset p1 p2 m1 m2).x
          + (pairOffset p1 p2 m1 m2).y * (pairOffset p1 p2 m1 m2).y) / (L * L) = 1 := by
        rw [hw]
        field_simp
      have hexp : dot
          (⟨(pairOffset p1 p2 m1 m2).x * (1 / L) * c.GRAVITY_CONSTANT * m1 * m2
              / (L * L + c.SOFTENING),
            (pairOffset p1 p2 m1 m2).y * (1 / L) * c.GRAVITY_CONSTANT * m1 * m2
              / (L * L + c.SOFTENING)⟩ : Vec2 K)
          ⟨(pairOffset p1 p2 m1 m2).x * (1 / L) * c.GRAVITY_CONSTANT * m1 * m2
              / (L * L + c.SOFTENING),
            (pairOffset p1 p2 m1 m2).y * (1 / L) * c.GRAVITY_CONSTANT * m1 * m2
              / (L * L + c.SOFTENING)⟩
          = c.GRAVITY_CONSTANT * m1 * m2 / (L * L + c.SOFTENING)
            * (c.GRAVITY_CONSTANT * m1 * m2 / (L * L + c.SOFTENING))
            * (((pairOffset p1 p2 m1 m2).x * (pairOffset p1 p2 m1 m2).x
              + (pairOffset p1 p2 m1 m2).y * (pairOffset p1 p2 m1 m2).y) / (L * L)) := by
        simp only [dot]
        ring
      rw [hexp, hone, mul_one]
    simp only [length, Vec2.muls_x, Vec2.muls_y]
    rw [hdot, hs.sqrt_mul_self hq]
    exact div_le_div_of_nonneg_left (by positivity) hS (by nlinarith [mul_self_nonneg L])


/-- The triangle inequality for `glm::length`. -/
theorem Vec2.length_add_le {sqrt : K → K} (hs : IsSqrt sqrt) (u v : Vec2 K) :
    length sqrt (u + v) ≤ length sqrt u + length sqrt v := by
  obtain ⟨ha0, haa⟩ := hs _ (Vec2.dot_self_nonneg u)
  obtain ⟨hb0, hbb⟩ := hs _ (Vec2.dot_self_nonneg v)
  obtain ⟨hc0, hcc⟩ := hs _ (Vec2.dot_self_nonneg (u + v))
  show sqrt (dot (u + v) (u + v)) ≤ sqrt (dot u u) + sqrt (dot v v)
  generalize sqrt (dot u u) = a at ha0 haa
  generalize sqrt (dot v v) = b at hb0 hbb
  generalize sqrt (dot (u + v) (u + v)) = t at hc0 hcc
  simp only [dot, Vec2.add_x, Vec2.add_y] at haa hbb hcc
  have hab : 0 ≤ a * b := mul_nonneg ha0 hb0
  have hcs : u.x * v.x + u.y * v.y ≤ a * b := by
    by_contra hlt
    push_neg at hlt
    have h1 := mul_self_lt_mul_self hab hlt
    have h2 : (a * b) * (a * b) = (u.x * u.x + u.y * u.y) * (v.x * v.x + v.y * v.y) := by
      rw [← haa, ← hbb]
      ring
    have h3 : (u.x * u.x + u.y * u.y) * (v.x * v.x + v.y * v.y)
        = (u.x * v.x + u.y * v.y) * (u.x * v.x + u.y * v.y)
          + (u.x * v.y - u.y * v.x) * (u.x * v.y - u.y * v.x) := by
      ring
    have h4 := mul_self_nonneg (u.x * v.y - u.y * v.x)
    linarith
  by_contra hlt
  push_neg at hlt
  have h5 := mul_self_lt_mul_self (add_nonneg ha0 hb0) hlt
  have h6 : (u.x + v.x) * (u.x + v.x) + (u.y + v.y) * (u.y + v.y)
      = (u.x * u.x + u.y * u.y) + 2 * (u.x * v.x + u.y * v.y) + (v.x * v.x + v.y * v.y) := by
    ring
  have h7 : (a + b) * (a + b) = a * a + 2 * (a * b) + b * b := by ring
  linarith

/-- Wherever the accumulated acceleration of body `i` is defined, its length is
at most the sum over the other bodies `j` of `G*m_i*m_j/SOFTENING`. -/
theorem evaluate_acceleration_length_le {sqrt : K → K} (hs : IsSqrt sqrt) (c : Constants K)
    (hG : 0 ≤ c.GRAVITY_CONSTANT) (hS : 0 < c.SOFTENING) (i : Nat)
    (positions : Nat → Vec2 K) (masses : Nat → K) (hm : ∀ j, 0 < masses j) (n : Nat) :
    ∀ a, evaluate_acceleration sqrt c i positions masses n = some a →
      length sqrt a ≤ accelerationBound c masses i n := by
  induction n with
  | zero =>
    intro a h
    simp only [evaluate_acceleration, Option.some.injEq] at h
    subst h
    have : dot (0 : Vec2 K) 0 = 0 := by simp [dot]
    simp [length, this, hs.sqrt_zero, accelerationBound]
  | succ n ih =>
    intro a h
    simp only [evaluate_acceleration] at h
    cases hprev : evaluate_acceleration sqrt c i positions masses n with
    | none => simp [hprev] at h
    | some acc =>
      rw [hprev, Option.some_bind] at h
      have hacc := ih acc hprev
      by_cases hin : i = n
      · simp only [hin, if_true, Option.some.injEq] at h
        subst h
        simp only [accelerationBound, hin, if_true, add_zero]
        rw [hin] at hacc
        exact hacc
      · simp only [hin, if_false] at h
        cases hpc : pairContribution sqrt c (positions i) (positions n) (masses i) (masses n) with
        | none => simp [hpc] at h
        | some f =>
          simp only [hpc, Option.map_some', Option.some.injEq] at h
          subst h
          have hf := pairContribution_length_le hs c hG hS _ _ _ _ (hm i) (hm n) f hpc
          simp only [accelerationBound, hin, if_false]
          exact le_trans (Vec2.length_add_le hs acc f) (add_le_add hacc hf)

/-- C8 (the code at the failing input): two bodies of mass 25000 at the same
position `(3, 4)`: the mass sum and the softened squared distance are
non-zero, but the centre of mass is the position itself, the length by which
`glm::normalize` divides is `0`, and the contribution is undefined. -/
theorem coincident_pair_divides_by_zero :
    divs (muls (⟨3, 4⟩ : Vec2 ℝ) 25000 + muls ⟨3, 4⟩ 25000) (25000 + 25000) = some ⟨3, 4⟩ ∧
    length Real.sqrt ((⟨3, 4⟩ : Vec2 ℝ) - ⟨3, 4⟩) = 0 ∧
    Vec2.normalize Real.sqrt ((⟨3, 4⟩ : Vec2 ℝ) - ⟨3, 4⟩) = none ∧
    pairContribution Real.sqrt (sourceConstants ℝ) ⟨3, 4⟩ ⟨3, 4⟩ 25000 25000 = none := by
  have hz : dot ((⟨3, 4⟩ : Vec2 ℝ) - ⟨3, 4⟩) ((⟨3, 4⟩ : Vec2 ℝ) - ⟨3, 4⟩) = 0 := by
    simp [dot]
  refine ⟨?_, ?_, ?_, ?_⟩
  · simp only [divs]
    norm_num
  · simp [length, hz]
  · simp [Vec2.normalize, Vec2.inversesqrt, hz]
  · exact pairContribution_coincident isSqrt_real _ _ _ _ (by norm_num)

/-- C9 (the code at the failing input): in a sweep over two bodies of mass 25000
at the same position the contribution of body 1 to body 0 is undefined, so there
is no vector of length at most `G*m_0*m_1/SOFTENING`, and the sweep has no
defined result. -/
theorem coincident_sweep_undefined :
    (¬ ∃ f, pairContribution Real.sqrt (sourceConstants ℝ) (coincidentState.p 0)
        (coincidentState.p 1) (coincidentState.m 0) (coincidentState.m 1) = some f ∧
      length Real.sqrt f ≤ (sourceConstants ℝ).GRAVITY_CONSTANT * coincidentState.m 0
        * coincidentState.m 1 / (sourceConstants ℝ).SOFTENING) ∧
    evaluate_acceleration Real.sqrt (sourceConstants ℝ) 0 coincidentState.p
      coincidentState.m 2 = none ∧
    sweep Real.sqrt (sourceConstants ℝ) 2 coincidentState = none := by
  have hpc : pairContribution Real.sqrt (sourceConstants ℝ) (coincidentState.p 0)
      (coincidentState.p 1) (coincidentState.m 0) (coincidentState.m 1) = none :=
    pairContribution_coincident isSqrt_real _ _ _ _ (by norm_num [coincidentState])
  have hev : evaluate_acceleration Real.sqrt (sourceConstants ℝ) 0 coincidentState.p
      coincidentState.m 2 = none := by
    rw [evaluate_acceleration_two_zero]
    exact hpc
  refine ⟨?_, hev, ?_⟩
  · rintro ⟨f, hf, _⟩
    rw [hpc] at hf
    exact absurd hf (by simp)
  · exact sweep_none Real.sqrt (sourceConstants ℝ) 2 coincidentState 0 (by norm_num) hev

/-! ## The theorems with hypotheses at concrete inputs -/

/-- C2 (witness): three frame deltas `1/240, 1/240, 1/60` summing to `3 * (1/120)`, on
a state counting its sweeps. -/
theorem accumulator_chunking_witness :
    (runFrames (1 / 120 : ℚ) (by norm_num) Nat.succ (initScheduler 0)
      [1 / 240, 1 / 240, 1 / 60]).count = 3 ∧
    (runFrames (1 / 120 : ℚ) (by norm_num) Nat.succ (initScheduler 0)
      [1 / 240, 1 / 240, 1 / 60]).sim
      = (runFrames (1 / 120 : ℚ) (by norm_num) Nat.succ (initScheduler 0)
          [((3 : ℕ) : ℚ) * (1 / 120)]).sim ∧
    (runFrames (1 / 120 : ℚ) (by norm_num) Nat.succ (initScheduler 0)
      [1 / 240, 1 / 240, 1 / 60]).acc = 0 :=
  have h := accumulator_chunking (1 / 120 : ℚ) (by norm_num) Nat.succ 0 3
    [1 / 240, 1 / 240, 1 / 60]
    (by
      intro d hd
      simp only [List.mem_cons, List.mem_singleton, List.not_mem_nil, or_false] at hd
      rcases hd with rfl | rfl | rfl <;> norm_num)
    (by norm_num)
  ⟨h.1, h.2.2.2.1, h.2.2.2.2.1⟩

/-- C7 (witness): a frame with delta `1/60` after a frame with delta `1/240`. -/
theorem accumulator_invariant_witness :
    0 ≤ (runFrames (1 / 120 : ℚ) (by norm_num) Nat.succ (initScheduler 0)
      ([1 / 240] ++ [1 / 60])).acc ∧
    (runFrames (1 / 120 : ℚ) (by norm_num) Nat.succ (initScheduler 0)
      ([1 / 240] ++ [1 / 60])).acc < 1 / 120 ∧
    ∀ a ∈ (runFrames (1 / 120 : ℚ) (by norm_num) Nat.succ (initScheduler 0)
      ([1 / 240] ++ [1 / 60])).trace, 0 ≤ a :=
  have h := accumulator_invariant (1 / 120 : ℚ) (by norm_num) Nat.succ 0 [1 / 240] (1 / 60)
    (by
      intro x hx
      rw [List.mem_singleton] at hx
      rw [hx]
      norm_num)
    (by norm_num)
  ⟨h.2.2.2.2.1, h.2.2.2.2.2, h.2.2.2.1⟩

/-- C3 (witness): the two masses `10^4` at rest at `(1, 0)` and `(-1, 0)`. -/
theorem mirror_two_sweeps_witness :
    (∀ k, k ≤ 2 → ∀ s2, sweeps Real.sqrt (sourceConstants ℝ) 2 k mirrorState = some s2 →
      s2.p 0 = -s2.p 1) ∧
    (mirrorState.p 0 ≠ 0 → ∃ s1, sweeps Real.sqrt (sourceConstants ℝ) 2 1 mirrorState = some s1 ∧
      s1.p 0 = mirrorState.p 0 ∧ s1.p 1 = -mirrorState.p 0 ∧
      ((sweeps Real.sqrt (sourceConstants ℝ) 2 2 mirrorState).isSome
        ↔ positionsSeenBy (sourceConstants ℝ) s1 1 0 ≠ s1.p 1)) :=
  mirror_two_sweeps isSqrt_real (sourceConstants ℝ) (by norm_num [sourceConstants])
    mirrorState (by norm_num [mirrorState]) rfl (by ext <;> simp [mirrorState]) rfl rfl rfl rfl

/-- C10 (witness): masses 25000 at `(0, 0)` and `(3, 4)` with the constants of the
source. -/
theorem pairContribution_direct_witness :
    ∃ t, 0 < t ∧
      pairContribution Real.sqrt (sourceConstants ℝ) ⟨0, 0⟩ ⟨3, 4⟩ 25000 25000
        = some (smul t ((⟨3, 4⟩ : Vec2 ℝ) - ⟨0, 0⟩)) :=
  (pairContribution_direct isSqrt_real (sourceConstants ℝ) (by norm_num [sourceConstants])
    (by norm_num [sourceConstants]) ⟨0, 0⟩ ⟨3, 4⟩ 25000 25000 (by norm_num) (by norm_num)
    (by
      intro h
      have hx := congrArg Vec2.x h
      norm_num at hx)).2.2.2.2

/-! ## C5 and C10: the rounded reading of the sweep -/

/-- With the identity as rounding the rounded contribution is the exact one. -/
theorem pairContributionFl_id (sqrt : K → K) (c : Constants K) (p1 p2 : Vec2 K) (m1 m2 : K) :
    pairContributionFl id sqrt c p1 p2 m1 m2 = pairContribution sqrt c p1 p2 m1 m2 := rfl

theorem forceStepFl_id (sqrt : K → K) (c : Constants K) (i j : Nat) (sim : Simulation K) :
    forceStepFl id sqrt c i j sim = forceStep sqrt c i j sim := rfl

theorem bodyStepFl_id (sqrt : K → K) (c : Constants K) (N i : Nat) (sim : Simulation K) :
    bodyStepFl id sqrt c N i sim = bodyStep sqrt c N i sim := rfl

theorem sweepFl_id (sqrt : K → K) (c : Constants K) (N : Nat) (sim : Simulation K) :
    sweepFl id sqrt c N sim = sweep sqrt c N sim := rfl

/-- With the identity as rounding the rounded sweeps are the exact ones. -/
theorem sweepsFl_id (sqrt : K → K) (c : Constants K) (N k : Nat) (sim : Simulation K) :
    sweepsFl id sqrt c N k sim = sweeps sqrt c N k sim := by
  induction k with
  | zero => rfl
  | succ k ih =>
    simp only [sweepsFl, sweeps, ih]
    rfl


section Rounding

variable [FloorRing K]

theorem roundHalfEven_near (q : K) (n : ℤ) (h : |q - n| < 1 / 2) : roundHalfEven q = n := by
  rw [abs_lt] at h
  obtain ⟨h1, h2⟩ := h
  unfold roundHalfEven
  rcases le_or_lt (n : K) q with hq | hq
  · have hf : ⌊q⌋ = n := Int.floor_eq_iff.mpr ⟨hq, by linarith⟩
    rw [hf, if_pos (by linarith)]
  · have hf : ⌊q⌋ = n - 1 := Int.floor_eq_iff.mpr ⟨by push_cast; linarith, by push_cast; linarith⟩
    rw [hf]
    push_cast
    rw [if_neg (by linarith), if_pos (by linarith)]
    ring

theorem roundHalfEven_tie (q : K) (m : ℤ) (h : q = m + 1 / 2) :
    roundHalfEven q = if m % 2 = 0 then m else m + 1 := by
  have hf : ⌊q⌋ = m := Int.floor_eq_iff.mpr ⟨by rw [h]; linarith, by rw [h]; linarith⟩
  unfold roundHalfEven
  rw [hf, h]
  rw [if_neg (by linarith), if_neg (by linarith)]

theorem binade32_eq (x : K) (e : ℤ) (he : -126 ≤ e) (hlo : (2 : K) ^ e ≤ |x|)
    (hhi : |x| < (2 : K) ^ (e + 1)) : binade32 x = e := by
  have hpos : 0 < |x| := lt_of_lt_of_le (by positivity) hlo
  have h1 : e ≤ Int.log 2 |x| := by
    rw [← Int.zpow_le_iff_le_log (by norm_num) hpos]
    simpa using hlo
  have h2 : Int.log 2 |x| < e + 1 := by
    rw [← Int.lt_zpow_iff_log_lt (by norm_num) hpos]
    simpa using hhi
  unfold binade32
  rw [max_eq_left (by omega)]
  omega

theorem round32_zero : round32 (0 : K) = 0 := by
  simp [round32, roundHalfEven]

/-- Evaluation of the rounding away from a tie: `x` lies in the binade of `2^e` and
`n` is the integer nearest to `x / 2^(e-23)`. -/
theorem round32_near (x y : K) (e n : ℤ) (he : -126 ≤ e) (hlo : (2 : K) ^ e ≤ |x|)
    (hhi : |x| < (2 : K) ^ (e + 1)) (hn : |x / 2 ^ (e - 23) - n| < 1 / 2)
    (hy : (n : K) * 2 ^ (e - 23) = y) : round32 x = y := by
  unfold round32
  rw [binade32_eq x e he hlo hhi, roundHalfEven_near _ n hn, hy]

/-- Evaluation of the rounding at a tie: `x / 2^(e-23)` is `m + 1/2`, and the even
one of `m`, `m + 1` is taken. -/
theorem round32_tie (x y : K) (e m : ℤ) (he : -126 ≤ e) (hlo : (2 : K) ^ e ≤ |x|)
    (hhi : |x| < (2 : K) ^ (e + 1)) (hm : x / 2 ^ (e - 23) = m + 1 / 2)
    (hy : ((if m % 2 = 0 then m else m + 1 : ℤ) : K) * 2 ^ (e - 23) = y) : round32 x = y := by
  unfold round32
  rw [binade32_eq x e he hlo hhi, roundHalfEven_tie _ m hm, hy]

end Rounding

theorem round32_one : round32 (1 : ℝ) = 1 :=
  round32_near _ _ 0 8388608 (by norm_num) (by norm_num) (by norm_num) (by norm_num)
    (by norm_num)

theorem sourceConstants32_TIME_STEP :
    (sourceConstants32 ℝ).TIME_STEP = 8947849 / 1073741824 :=
  round32_near _ _ (-7) 8947849 (by norm_num) (by rw [abs_of_pos (by norm_num)]; norm_num)
    (by rw [abs_of_pos (by norm_num)]; norm_num) (by rw [abs_lt]; constructor <;> norm_num)
    (by norm_num)

theorem sourceConstants32_GRAVITY_CONSTANT :
    (sourceConstants32 ℝ).GRAVITY_CONSTANT = 14073749 / 140737488355328 :=
  round32_near _ _ (-24) 14073749 (by norm_num) (by rw [abs_of_pos (by norm_num)]; norm_num)
    (by rw [abs_of_pos (by norm_num)]; norm_num) (by rw [abs_lt]; constructor <;> norm_num)
    (by norm_num)

theorem sourceConstants32_SOFTENING : (sourceConstants32 ℝ).SOFTENING = 1 := round32_one

/-- One sweep of a single body with zero prior acceleration, every operation
rounded by `fl`. -/
theorem sweepFl_one (fl sqrt : K → K) (c : Constants K) (s : Simulation K) (h0 : fl 0 = 0)
    (hvx : fl (s.v 0).x = (s.v 0).x) (hvy : fl (s.v 0).y = (s.v 0).y) (ha : s.a 0 = 0) :
    ∃ s2, sweepFl fl sqrt c 1 s = some s2 ∧ s2.v 0 = s.v 0 ∧ s2.a 0 = 0 ∧
      s2.p 0 = addFl fl (s.p 0) (addFl fl (mulsFl fl (s.v 0) c.TIME_STEP) 0) ∧ s2.m = s.m := by
  have hz : mulsFl fl (mulsFl fl (mulsFl fl (0 : Vec2 K) c.TIME_STEP) c.TIME_STEP) (1 / 2)
      = 0 := by
    ext <;> simp [mulsFl, h0]
  have hz2 : mulsFl fl (smulFl fl (1 / 2) (addFl fl (0 : Vec2 K) 0)) c.TIME_STEP = 0 := by
    ext <;> simp [mulsFl, smulFl, addFl, h0]
  have hv : addFl fl (s.v 0) 0 = s.v 0 := by
    ext <;> simp [addFl, hvx, hvy]
  refine ⟨_, by simp only [sweepFl, forLoop, Option.some_bind, bodyStepFl, forceStepFl,
    if_true, Option.map_some']; rfl, ?_, ?_, ?_, ?_⟩
  · simp only [Function.update_same, ha, hz2, hv]
  · simp only [Function.update_same]
  · simp only [Function.update_same, ha, hz]
  · rfl

/-- The sweeps of a single body with zero prior acceleration, every operation
rounded by `fl`. -/
theorem sweepsFl_one (fl sqrt : K → K) (c : Constants K) (s : Simulation K) (k : Nat)
    (h0 : fl 0 = 0) (hvx : fl (s.v 0).x = (s.v 0).x) (hvy : fl (s.v 0).y = (s.v 0).y)
    (ha : s.a 0 = 0) :
    ∃ s2, sweepsFl fl sqrt c 1 k s = some s2 ∧ s2.v 0 = s.v 0 ∧ s2.a 0 = 0 ∧
      s2.p 0 = (fun p => addFl fl p (addFl fl (mulsFl fl (s.v 0) c.TIME_STEP) 0))^[k] (s.p 0) ∧
      s2.m = s.m := by
  induction k with
  | zero => exact ⟨s, rfl, rfl, ha, rfl, rfl⟩
  | succ k ih =>
    obtain ⟨s1, h1, hv, ha1, hp, hm⟩ := ih
    obtain ⟨s2, g1, gv, ga, gp, gm⟩ :=
      sweepFl_one fl sqrt c s1 h0 (by rw [hv]; exact hvx) (by rw [hv]; exact hvy) ha1
    refine ⟨s2, by simp only [sweepsFl, h1, Option.some_bind, g1], by rw [gv, hv], ga, ?_,
      by rw [gm, hm]⟩
    rw [gp, hv, hp, Function.iterate_succ_apply']

/-- C5 (amended): for a single body (`N = 1`) with any position, any velocity `v0`
that the rounding leaves unchanged, any mass and zero prior acceleration, and
every number `k` of sweeps, for every rounding `fl` of the arithmetic with
`fl 0 = 0` (no operation overflowing): the force loop leaves the state
untouched (it contributes nothing), the `k` sweeps are defined, after them the
velocity is still `v0` and the stored acceleration is zero, and the position is
the initial one after `k` times the rounded update
`p ← fl (p + fl (fl (v0 * dt) + 0))`; in exact arithmetic (`fl = id`, the
sweep `sweeps`) the position is `p0 + (k * dt) * v0`. -/
theorem single_body_sweeps (fl sqrt : K → K) (c : Constants K) (s : Simulation K) (k : Nat)
    (h0 : fl 0 = 0) (hvx : fl (s.v 0).x = (s.v 0).x) (hvy : fl (s.v 0).y = (s.v 0).y)
    (ha : s.a 0 = 0) :
    (∀ t : Simulation K, forLoop (forceStepFl fl sqrt c 0) 1 t = some t) ∧
    (∃ s2, sweepsFl fl sqrt c 1 k s = some s2 ∧ s2.v 0 = s.v 0 ∧ s2.a 0 = 0 ∧
      s2.p 0 = (fun p => addFl fl p (addFl fl (mulsFl fl (s.v 0) c.TIME_STEP) 0))^[k] (s.p 0) ∧
      s2.m = s.m) ∧
    (∃ s2, sweeps sqrt c 1 k s = some s2 ∧ s2.v 0 = s.v 0 ∧ s2.a 0 = 0 ∧
      s2.p 0 = s.p 0 + smul ((k : K) * c.TIME_STEP) (s.v 0) ∧ s2.m = s.m) := by
  refine ⟨fun t => by simp [forLoop, forceStepFl],
    sweepsFl_one fl sqrt c s k h0 hvx hvy ha, ?_⟩
  obtain ⟨s2, h1, hv, ha2, hp, hm⟩ := sweepsFl_one id sqrt c s k rfl rfl rfl ha
  rw [sweepsFl_id] at h1
  refine ⟨s2, h1, hv, ha2, ?_, hm⟩
  rw [hp]
  clear h1 hp
  induction k with
  | zero => ext <;> simp
  | succ k ih =>
    rw [Function.iterate_succ_apply', ih]
    ext <;> simp [addFl, mulsFl] <;> ring

/-- C5 (counterexample): in binary32, a single body at `(2^24, 0)` with velocity
`(1, 0)` and zero prior acceleration is still at `(2^24, 0)` after 1200 sweeps:
every update `2^24 + fl (dt)` rounds back to `2^24`, which is not
`p0 + 1200 * dt * v0`. -/
theorem single_body_stuck :
    round32 ((2 : ℝ) ^ 24) = 2 ^ 24 ∧
    ∃ s2, sweepsFl round32 Real.sqrt (sourceConstants32 ℝ) 1 1200 stuckState = some s2 ∧
      s2.v 0 = stuckState.v 0 ∧ s2.a 0 = 0 ∧ s2.p 0 = stuckState.p 0 ∧
      s2.p 0 ≠ stuckState.p 0
        + smul (((1200 : ℕ) : ℝ) * (sourceConstants32 ℝ).TIME_STEP) (stuckState.v 0) := by
  have hrep : round32 ((2 : ℝ) ^ 24) = 2 ^ 24 :=
    round32_near _ _ 24 8388608 (by norm_num) (by norm_num) (by norm_num) (by norm_num)
      (by norm_num)
  have ht : round32 ((1 : ℝ) * (8947849 / 1073741824)) = 8947849 / 1073741824 :=
    round32_near _ _ (-7) 8947849 (by norm_num)
      (by rw [abs_of_pos (by norm_num)]; norm_num)
      (by rw [abs_of_pos (by norm_num)]; norm_num) (by norm_num) (by norm_num)
  have ht0 : round32 ((8947849 : ℝ) / 1073741824 + 0) = 8947849 / 1073741824 :=
    round32_near _ _ (-7) 8947849 (by norm_num)
      (by rw [abs_of_pos (by norm_num)]; norm_num)
      (by rw [abs_of_pos (by norm_num)]; norm_num) (by norm_num) (by norm_num)
  have hp : round32 ((2 : ℝ) ^ 24 + 8947849 / 1073741824) = 2 ^ 24 :=
    round32_near _ _ 24 8388608 (by norm_num)
      (by rw [abs_of_pos (by norm_num)]; norm_num)
      (by rw [abs_of_pos (by norm_num)]; norm_num)
      (by rw [abs_lt]; constructor <;> norm_num) (by norm_num)
  have hfix : (fun p => addFl round32 p
      (addFl round32 (mulsFl round32 (stuckState.v 0) (sourceConstants32 ℝ).TIME_STEP) 0))
      (stuckState.p 0) = stuckState.p 0 := by
    rw [sourceConstants32_TIME_STEP]
    ext
    · simp only [addFl, mulsFl, stuckState, Vec2.zero_x, ht, ht0, hp]
    · simp only [addFl, mulsFl, stuckState, Vec2.zero_y, zero_mul, add_zero, round32_zero]
  obtain ⟨s2, h1, hv, ha, hpos, _⟩ := sweepsFl_one round32 Real.sqrt (sourceConstants32 ℝ)
    stuckState 1200 round32_zero round32_one round32_zero rfl
  have hit := @Function.iterate_fixed _ (fun p => addFl round32 p
      (addFl round32 (mulsFl round32 (stuckState.v 0) (sourceConstants32 ℝ).TIME_STEP) 0))
      (stuckState.p 0) hfix 1200
  rw [hit] at hpos
  refine ⟨hrep, s2, h1, hv, ha, hpos, ?_⟩
  rw [hpos, sourceConstants32_TIME_STEP]
  intro h
  have hx := congrArg Vec2.x h
  norm_num [stuckState] at hx

/-- Evaluation of the rounded contribution from its intermediate values. -/
theorem pairContributionFl_eval (fl sqrt : K → K) (c : Constants K) (p1 p2 : Vec2 K)
    (m1 m2 : K) (com w u dir f : Vec2 K) (L d inv den : K)
    (hms : fl (m1 + m2) ≠ 0)
    (hcom : com = ⟨fl (fl (fl (p1.x * m1) + fl (p2.x * m2)) / fl (m1 + m2)),
                   fl (fl (fl (p1.y * m1) + fl (p2.y * m2)) / fl (m1 + m2))⟩)
    (hw : w = subFl fl com p1) (hu : u = subFl fl p1 com)
    (hL : L = fl (sqrt (dotFl fl w w))) (hL0 : L ≠ 0)
    (hd : d = fl (sqrt (dotFl fl u u)))
    (hinv : inv = fl (1 / L)) (hdir : dir = mulsFl fl w inv)
    (hden : den = fl (fl (d * d) + c.SOFTENING)) (hden0 : den ≠ 0)
    (hf : f = ⟨fl ((mulsFl fl (mulsFl fl (mulsFl fl dir c.GRAVITY_CONSTANT) m1) m2).x / den),
               fl ((mulsFl fl (mulsFl fl (mulsFl fl dir c.GRAVITY_CONSTANT) m1) m2).y / den)⟩) :
    pairContributionFl fl sqrt c p1 p2 m1 m2 = some f := by
  subst hcom hw hu hL hd hinv hdir hden hf
  simp only [pairContributionFl, divsFl, if_neg hms, Option.some_bind, addFl, mulsFl,
    normalizeFl, inversesqrtFl, if_neg hL0, Option.map_some', distanceFl, lengthFl,
    if_neg hden0]

theorem sqrt_two_pow_neg44 : Real.sqrt (1 / 17592186044416) = 1 / 4194304 := by
  rw [Real.sqrt_eq_iff_mul_self_eq (by norm_num) (by norm_num)]
  norm_num

/-- The rounded contribution at masses `25000`, `25000 + 11/512` and positions `(3, 0)`,
`(3 + 2^-22, 0)`, operation by operation. -/
theorem pairContributionFl_example :
    pairContributionFl round32 Real.sqrt (sourceConstants32 ℝ) ⟨3, 0⟩ ⟨3 + 1 / 2 ^ 22, 0⟩
        25000 (25000 + 11 / 512)
      = some ⟨-(8192007 / 131072), 0⟩ := by
  have f1 : round32 (3 * 25000 : ℝ) = 75000 :=
    round32_near _ _ (16) (9600000) (by norm_num)
      (by rw [abs_of_pos (by norm_num)]; norm_num)
      (by rw [abs_of_pos (by norm_num)]; norm_num)
      (by rw [abs_lt]; constructor <;> norm_num) (by norm_num)
  have f2 : round32 ((3 + 1 / 2 ^ 22) * (25000 + 11 / 512) : ℝ) = 9600009 / 128 :=
    round32_near _ _ (16) (9600009) (by norm_num)
      (by rw [abs_of_pos (by norm_num)]; norm_num)
      (by rw [abs_of_pos (by norm_num)]; norm_num)
      (by rw [abs_lt]; constructor <;> norm_num) (by norm_num)
  have f3 : round32 (75000 + 9600009 / 128 : ℝ) = 2400001 / 16 :=
    round32_tie _ _ (17) (9600004) (by norm_num)
      (by rw [abs_of_pos (by norm_num)]; norm_num)
      (by rw [abs_of_pos (by norm_num)]; norm_num)
      (by norm_num) (by norm_num)
  have f4 : round32 (25000 + (25000 + 11 / 512) : ℝ) = 6400003 / 128 :=
    round32_tie _ _ (15) (12800005) (by norm_num)
      (by rw [abs_of_pos (by norm_num)]; norm_num)
      (by rw [abs_of_pos (by norm_num)]; norm_num)
      (by norm_num) (by norm_num)
  have f5 : round32 (2400001 / 16 / (6400003 / 128) : ℝ) = 12582911 / 4194304 :=
    round32_near _ _ (1) (12582911) (by norm_num)
      (by rw [abs_of_pos (by norm_num)]; norm_num)
      (by rw [abs_of_pos (by norm_num)]; norm_num)
      (by rw [abs_lt]; constructor <;> norm_num) (by norm_num)
  have f6 : round32 (12582911 / 4194304 - 3 : ℝ) = -(1 / 4194304) :=
    round32_near _ _ (-22) (-8388608) (by norm_num)
      (by rw [abs_of_neg (by norm_num)]; norm_num)
      (by rw [abs_of_neg (by norm_num)]; norm_num)
      (by rw [abs_lt]; constructor <;> norm_num) (by norm_num)
  have f7 : round32 (3 - 12582911 / 4194304 : ℝ) = 1 / 4194304 :=
    round32_near _ _ (-22) (8388608) (by norm_num)
      (by rw [abs_of_pos (by norm_num)]; norm_num)
      (by rw [abs_of_pos (by norm_num)]; norm_num)
      (by rw [abs_lt]; constructor <;> norm_num) (by norm_num)
  have f8 : round32 (-(1 / 4194304) * -(1 / 4194304) : ℝ) = 1 / 17592186044416 :=
    round32_near _ _ (-44) (8388608) (by norm_num)
      (by rw [abs_of_pos (by norm_num)]; norm_num)
      (by rw [abs_of_pos (by norm_num)]; norm_num)
      (by rw [abs_lt]; constructor <;> norm_num) (by norm_num)
  have f8b : round32 (1 / 4194304 * (1 / 4194304) : ℝ) = 1 / 17592186044416 :=
    round32_near _ _ (-44) (8388608) (by norm_num)
      (by rw [abs_of_pos (by norm_num)]; norm_num)
      (by rw [abs_of_pos (by norm_num)]; norm_num)
      (by rw [abs_lt]; constructor <;> norm_num) (by norm_num)
  have f9 : round32 (1 / 17592186044416 : ℝ) = 1 / 17592186044416 :=
    round32_near _ _ (-44) (8388608) (by norm_num)
      (by rw [abs_of_pos (by norm_num)]; norm_num)
      (by rw [abs_of_pos (by norm_num)]; norm_num)
      (by rw [abs_lt]; constructor <;> norm_num) (by norm_num)
  have f10 : round32 (1 / 4194304 : ℝ) = 1 / 4194304 :=
    round32_near _ _ (-22) (8388608) (by norm_num)
      (by rw [abs_of_pos (by norm_num)]; norm_num)
      (by rw [abs_of_pos (by norm_num)]; norm_num)
      (by rw [abs_lt]; constructor <;> norm_num) (by norm_num)
  have f11 : round32 (1 / (1 / 4194304) : ℝ) = 4194304 :=
    round32_near _ _ (22) (8388608) (by norm_num)
      (by rw [abs_of_pos (by norm_num)]; norm_num)
      (by rw [abs_of_pos (by norm_num)]; norm_num)
      (by rw [abs_lt]; constructor <;> norm_num) (by norm_num)
  have f12 : round32 (-(1 / 4194304) * 4194304 : ℝ) = -1 :=
    round32_near _ _ (0) (-8388608) (by norm_num)
      (by rw [abs_of_neg (by norm_num)]; norm_num)
      (by rw [abs_of_neg (by norm_num)]; norm_num)
      (by rw [abs_lt]; constructor <;> norm_num) (by norm_num)
  have f13 : round32 (1 / 17592186044416 + 1 : ℝ) = 1 :=
    round32_near _ _ (0) (8388608) (by norm_num)
      (by rw [abs_of_pos (by norm_num)]; norm_num)
      (by rw [abs_of_pos (by norm_num)]; norm_num)
      (by rw [abs_lt]; constructor <;> norm_num) (by norm_num)
  have f14 : round32 (-1 * (14073749 / 140737488355328) : ℝ) = -(14073749 / 140737488355328) :=
    round32_near _ _ (-24) (-14073749) (by norm_num)
      (by rw [abs_of_neg (by norm_num)]; norm_num)
      (by rw [abs_of_neg (by norm_num)]; norm_num)
      (by rw [abs_lt]; constructor <;> norm_num) (by norm_num)
  have f15 : round32 (-(14073749 / 140737488355328) * 25000 : ℝ) = -(5368709 / 2147483648) :=
    round32_near _ _ (-9) (-10737418) (by norm_num)
      (by rw [abs_of_neg (by norm_num)]; norm_num)
      (by rw [abs_of_neg (by norm_num)]; norm_num)
      (by rw [abs_lt]; constructor <;> norm_num) (by norm_num)
  have f16 : round32 (-(5368709 / 2147483648) * (25000 + 11 / 512) : ℝ) = -(8192007 / 131072) :=
    round32_near _ _ (5) (-16384014) (by norm_num)
      (by rw [abs_of_neg (by norm_num)]; norm_num)
      (by rw [abs_of_neg (by norm_num)]; norm_num)
      (by rw [abs_lt]; constructor <;> norm_num) (by norm_num)
  have f17 : round32 (-(8192007 / 131072) / 1 : ℝ) = -(8192007 / 131072) :=
    round32_near _ _ (5) (-16384014) (by norm_num)
      (by rw [abs_of_neg (by norm_num)]; norm_num)
      (by rw [abs_of_neg (by norm_num)]; norm_num)
      (by rw [abs_lt]; constructor <;> norm_num) (by norm_num)
  apply pairContributionFl_eval round32 Real.sqrt (sourceConstants32 ℝ) _ _ _ _
    ⟨12582911 / 4194304, 0⟩ ⟨-(1 / 4194304), 0⟩ ⟨1 / 4194304, 0⟩ ⟨-1, 0⟩ _
    (1 / 4194304) (1 / 4194304) 4194304 1
  · rw [f4]
    norm_num
  · simp only [f1, f2, f3, f4, f5, zero_mul, add_zero, zero_div, round32_zero]
  · simp only [subFl, f6, sub_zero, round32_zero]
  · simp only [subFl, f7, sub_zero, round32_zero]
  · simp only [dotFl, f8, f9, mul_zero, add_zero, round32_zero, sqrt_two_pow_neg44, f10]
  · norm_num
  · simp only [dotFl, f8b, f9, mul_zero, add_zero, round32_zero, sqrt_two_pow_neg44, f10]
  · simp only [f11]
  · simp only [mulsFl, f12, zero_mul, round32_zero]
  · simp only [f8b, sourceConstants32_SOFTENING, f13]
  · norm_num
  · simp only [mulsFl, sourceConstants32_GRAVITY_CONSTANT, f14, f15, f16, f17, zero_mul,
      zero_div, round32_zero]

theorem round32_three : round32 (3 : ℝ) = 3 :=
  round32_near _ _ (1) (12582912) (by norm_num)
    (by rw [abs_of_pos (by norm_num)]; norm_num)
    (by rw [abs_of_pos (by norm_num)]; norm_num)
    (by rw [abs_lt]; constructor <;> norm_num) (by norm_num)

theorem round32_four : round32 (4 : ℝ) = 4 :=
  round32_near _ _ (2) (8388608) (by norm_num)
    (by rw [abs_of_pos (by norm_num)]; norm_num)
    (by rw [abs_of_pos (by norm_num)]; norm_num)
    (by rw [abs_lt]; constructor <;> norm_num) (by norm_num)

theorem round32_25000 : round32 (25000 : ℝ) = 25000 :=
  round32_near _ _ (14) (12800000) (by norm_num)
    (by rw [abs_of_pos (by norm_num)]; norm_num)
    (by rw [abs_of_pos (by norm_num)]; norm_num)
    (by rw [abs_lt]; constructor <;> norm_num) (by norm_num)

/-- The rounded contribution is undefined when the rounded centre of mass is `p1`. -/
theorem pairContributionFl_none (fl sqrt : K → K) (c : Constants K) (p1 p2 : Vec2 K)
    (m1 m2 : K) (com w : Vec2 K)
    (hms : fl (m1 + m2) ≠ 0)
    (hcom : com = ⟨fl (fl (fl (p1.x * m1) + fl (p2.x * m2)) / fl (m1 + m2)),
                   fl (fl (fl (p1.y * m1) + fl (p2.y * m2)) / fl (m1 + m2))⟩)
    (hw : w = subFl fl com p1) (hL : fl (sqrt (dotFl fl w w)) = 0) :
    pairContributionFl fl sqrt c p1 p2 m1 m2 = none := by
  subst hcom hw
  simp only [pairContributionFl, divsFl, if_neg hms, Option.some_bind, addFl, mulsFl,
    normalizeFl, inversesqrtFl, if_pos hL, Option.map_none', Option.none_bind]

/-- Two distinct binary32 positions `(1, 0)` and `(1 + 2^-23, 0)` with masses 25000 and
24000: the rounded centre of mass is `(1, 0)` itself and the contribution is
undefined. -/
theorem pairContribution_rounded_undefined :
    pairContributionFl round32 Real.sqrt (sourceConstants32 ℝ) ⟨1, 0⟩ ⟨1 + 1 / 2 ^ 23, 0⟩
        25000 24000 = none := by
  have f1 : round32 (1 * 25000 : ℝ) = 25000 :=
    round32_near _ _ (14) (12800000) (by norm_num)
      (by rw [abs_of_pos (by norm_num)]; norm_num)
      (by rw [abs_of_pos (by norm_num)]; norm_num)
      (by rw [abs_lt]; constructor <;> norm_num) (by norm_num)
  have f2 : round32 ((1 + 1 / 2 ^ 23) * 24000 : ℝ) = 12288001 / 512 :=
    round32_near _ _ (14) (12288001) (by norm_num)
      (by rw [abs_of_pos (by norm_num)]; norm_num)
      (by rw [abs_of_pos (by norm_num)]; norm_num)
      (by rw [abs_lt]; constructor <;> norm_num) (by norm_num)
  have f3 : round32 (25000 + 12288001 / 512 : ℝ) = 49000 :=
    round32_tie _ _ (15) (12544000) (by norm_num)
      (by rw [abs_of_pos (by norm_num)]; norm_num)
      (by rw [abs_of_pos (by norm_num)]; norm_num)
      (by norm_num) (by norm_num)
  have f4 : round32 (25000 + 24000 : ℝ) = 49000 :=
    round32_near _ _ (15) (12544000) (by norm_num)
      (by rw [abs_of_pos (by norm_num)]; norm_num)
      (by rw [abs_of_pos (by norm_num)]; norm_num)
      (by rw [abs_lt]; constructor <;> norm_num) (by norm_num)
  have f5 : round32 (49000 / 49000 : ℝ) = 1 :=
    round32_near _ _ (0) (8388608) (by norm_num)
      (by rw [abs_of_pos (by norm_num)]; norm_num)
      (by rw [abs_of_pos (by norm_num)]; norm_num)
      (by rw [abs_lt]; constructor <;> norm_num) (by norm_num)
  apply pairContributionFl_none round32 Real.sqrt (sourceConstants32 ℝ) _ _ _ _
    ⟨1, 0⟩ ⟨0, 0⟩
  · rw [f4]
    norm_num
  · simp only [f1, f2, f3, f4, f5, zero_mul, add_zero, zero_div, round32_zero]
  · simp only [subFl, sub_self, round32_zero]
  · simp only [dotFl, mul_zero, add_zero, round32_zero, Real.sqrt_zero]

/-- Five rounded sweeps of the single body at `(1, 2)` with velocity `(3, 4)`: the
first coordinate is `9437183/8388608`, not `1 + 5 * dt * 3`. -/
theorem soloState_rounded_x :
    ((fun p => addFl round32 p
        (addFl round32 (mulsFl round32 (soloState.v 0) (sourceConstants32 ℝ).TIME_STEP) 0))^[5]
      (soloState.p 0)).x = 9437183 / 8388608 := by
  have g0 : round32 (3 * (8947849 / 1073741824) : ℝ) = 6710887 / 268435456 :=
    round32_tie _ _ (-6) (13421773) (by norm_num)
      (by rw [abs_of_pos (by norm_num)]; norm_num)
      (by rw [abs_of_pos (by norm_num)]; norm_num)
      (by norm_num) (by norm_num)
  have g0b : round32 (6710887 / 268435456 + 0 : ℝ) = 6710887 / 268435456 :=
    round32_near _ _ (-6) (13421774) (by norm_num)
      (by rw [abs_of_pos (by norm_num)]; norm_num)
      (by rw [abs_of_pos (by norm_num)]; norm_num)
      (by rw [abs_lt]; constructor <;> norm_num) (by norm_num)
  have g1 : round32 (1 + 6710887 / 268435456 : ℝ) = 8598323 / 8388608 :=
    round32_near _ _ (0) (8598323) (by norm_num)
      (by rw [abs_of_pos (by norm_num)]; norm_num)
      (by rw [abs_of_pos (by norm_num)]; norm_num)
      (by rw [abs_lt]; constructor <;> norm_num) (by norm_num)
  have g2 : round32 (8598323 / 8388608 + 6710887 / 268435456 : ℝ) = 4404019 / 4194304 :=
    round32_near _ _ (0) (8808038) (by norm_num)
      (by rw [abs_of_pos (by norm_num)]; norm_num)
      (by rw [abs_of_pos (by norm_num)]; norm_num)
      (by rw [abs_lt]; constructor <;> norm_num) (by norm_num)
  have g3 : round32 (4404019 / 4194304 + 6710887 / 268435456 : ℝ) = 9017753 / 8388608 :=
    round32_near _ _ (0) (9017753) (by norm_num)
      (by rw [abs_of_pos (by norm_num)]; norm_num)
      (by rw [abs_of_pos (by norm_num)]; norm_num)
      (by rw [abs_lt]; constructor <;> norm_num) (by norm_num)
  have g4 : round32 (9017753 / 8388608 + 6710887 / 268435456 : ℝ) = 2306867 / 2097152 :=
    round32_near _ _ (0) (9227468) (by norm_num)
      (by rw [abs_of_pos (by norm_num)]; norm_num)
      (by rw [abs_of_pos (by norm_num)]; norm_num)
      (by rw [abs_lt]; constructor <;> norm_num) (by norm_num)
  have g5 : round32 (2306867 / 2097152 + 6710887 / 268435456 : ℝ) = 9437183 / 8388608 :=
    round32_near _ _ (0) (9437183) (by norm_num)
      (by rw [abs_of_pos (by norm_num)]; norm_num)
      (by rw [abs_of_pos (by norm_num)]; norm_num)
      (by rw [abs_lt]; constructor <;> norm_num) (by norm_num)
  simp only [Function.iterate_succ, Function.iterate_zero, Function.comp_apply, id_eq,
    addFl, mulsFl, soloState, Vec2.zero_x, sourceConstants32_TIME_STEP, g0, g0b, g1, g2, g3,
    g4, g5]

/-- C5 (witness): five binary32 sweeps of the single body at `(1, 2)` with velocity
`(3, 4)`; the first coordinate of the position is `9437183/8388608`. -/
theorem single_body_sweeps_witness :
    ∃ s2, sweepsFl round32 Real.sqrt (sourceConstants32 ℝ) 1 5 soloState = some s2 ∧
      s2.v 0 = soloState.v 0 ∧ s2.a 0 = 0 ∧ (s2.p 0).x = 9437183 / 8388608 := by
  obtain ⟨s2, h1, hv, ha, hp, _⟩ :=
    (single_body_sweeps round32 Real.sqrt (sourceConstants32 ℝ) soloState 5 round32_zero
      round32_three round32_four rfl).2.1
  exact ⟨s2, h1, hv, ha, by rw [hp]; exact soloState_rounded_x⟩

/-- C10 (counterexample): in binary32, masses `25000` and `25000 + 11/512` at the
distinct positions `(3, 0)` and `(3 + 2^-22, 0)`: the rounded centre of mass is
`(3 - 2^-22, 0)`, on the far side of body 1, and the contribution of body 2 is
`(-8192007/131072, 0)`, which is not a positive multiple of `p2 - p1`. -/
theorem pairContribution_rounded_negative :
    round32 (3 + 1 / 2 ^ 22 : ℝ) = 3 + 1 / 2 ^ 22 ∧
    round32 (25000 + 11 / 512 : ℝ) = 25000 + 11 / 512 ∧
    pairContributionFl round32 Real.sqrt (sourceConstants32 ℝ) ⟨3, 0⟩ ⟨3 + 1 / 2 ^ 22, 0⟩
        25000 (25000 + 11 / 512)
      = some ⟨-(8192007 / 131072), 0⟩ ∧
    ¬ ∃ t : ℝ, 0 < t ∧
      pairContributionFl round32 Real.sqrt (sourceConstants32 ℝ) ⟨3, 0⟩ ⟨3 + 1 / 2 ^ 22, 0⟩
          25000 (25000 + 11 / 512)
        = some (smul t ((⟨3 + 1 / 2 ^ 22, 0⟩ : Vec2 ℝ) - ⟨3, 0⟩)) := by
  have r1 : round32 (3 + 1 / 2 ^ 22 : ℝ) = 3 + 1 / 2 ^ 22 :=
    round32_near _ _ 1 12582913 (by norm_num)
      (by rw [abs_of_pos (by norm_num)]; norm_num)
      (by rw [abs_of_pos (by norm_num)]; norm_num)
      (by rw [abs_lt]; constructor <;> norm_num) (by norm_num)
  have r2 : round32 (25000 + 11 / 512 : ℝ) = 25000 + 11 / 512 :=
    round32_near _ _ 14 12800011 (by norm_num)
      (by rw [abs_of_pos (by norm_num)]; norm_num)
      (by rw [abs_of_pos (by norm_num)]; norm_num)
      (by rw [abs_lt]; constructor <;> norm_num) (by norm_num)
  refine ⟨r1, r2, pairContributionFl_example, ?_⟩
  rintro ⟨t, ht, h⟩
  rw [pairContributionFl_example] at h
  have hx := congrArg Vec2.x (Option.some.inj h)
  simp only [Vec2.smul_x, Vec2.sub_x] at hx
  have : (0 : ℝ) < t * (3 + 1 / 2 ^ 22 - 3) := by positivity
  linarith

end NBody
